import Mathlib

/-!
# Ruschip: a shallow embedding of the CHIP-8 / SUPER-CHIP virtual machine

This development embeds the core of the Ruschip emulator (the instruction
word, the display buffer, the keypad state, the classic CHIP-8 backend in
`src/backend/chip8.rs`, the SUPER-CHIP overlay in `src/backend/super_chip.rs`,
and the legacy monolithic backend revision kept in `src/backend/mod.rs`)
and proves or refutes the specified properties of those components.

Machine integers are modelled as `Nat` with explicit `% 256` / `% 65536`
wrapping at the points where the Rust `u8`/`u16` types force it.  Fallible
operations return a `Step` value: `Step.crash` models a Rust panic (an
out-of-bounds index or a `copy_from_slice` length mismatch), `Step.fail`
models an `Err(BackendError)` return, and `Step.ok` a successful `Ok`.
-/

set_option maxRecDepth 8000

namespace Ruschip

/-- The 16-bit instruction word (`Instruction` in `src/backend/instruction.rs`).
`new` builds it from two big-endian bytes; the `% 256` records that the Rust
sources of those bytes are `u8` values. -/
structure Instruction where
  toWord : Nat
deriving DecidableEq

/-- `Instruction::new([b0, b1])` = `u16::from_be_bytes`. -/
def Instruction.new (b0 b1 : Nat) : Instruction :=
  ⟨(b0 % 256) * 256 + (b1 % 256)⟩

/-- `operator_code`: the top nibble `w >> 12`. -/
def Instruction.operator_code (i : Instruction) : Nat := i.toWord / 4096

/-- `operand_n`: `w & 0x000F`. -/
def Instruction.operand_n (i : Instruction) : Nat := i.toWord % 16

/-- `operand_nn`: `w & 0x00FF`. -/
def Instruction.operand_nn (i : Instruction) : Nat := i.toWord % 256

/-- `operand_nnn`: `w & 0x0FFF`. -/
def Instruction.operand_nnn (i : Instruction) : Nat := i.toWord % 4096

/-- `operand_x`: `(w & 0x0F00) >> 8`. -/
def Instruction.operand_x (i : Instruction) : Nat := i.toWord / 256 % 16

/-- `operand_y`: `(w & 0x00F0) >> 4`. -/
def Instruction.operand_y (i : Instruction) : Nat := i.toWord / 16 % 16

/-- `BackendErrorKind` from `src/backend/error.rs`. -/
inductive BackendErrorKind where
  | MemoryOverflow
  | ProgramInvalid
  | ProgramNotLoaded
  | StackOverflow
  | StackUnderflow
  | UnrecognizedInstruction
  | UnrecognizedKey
  | UnrecognizedSprite
  | DisplayNotConnected
deriving DecidableEq

/-- `BackendError`: the error kind plus the offending address and opcode. -/
structure BackendError where
  instruction : Option (Nat × Option Instruction)
  kind : BackendErrorKind
deriving DecidableEq

/-- Outcome of a fallible VM operation: `crash` models a Rust panic,
`fail e` an `Err(e)` return, `ok a` an `Ok(a)` return. -/
inductive Step (α : Type) where
  | crash : Step α
  | fail : BackendError → Step α
  | ok : α → Step α

/-- `ControlFlow<()>` as returned by `execute`. -/
inductive CtrlFlow where
  | Continue
  | Break
deriving DecidableEq

/-- Pointwise update of a register file / memory function
(an array element assignment in the Rust source). -/
def setF (f : Nat → Nat) (i v : Nat) : Nat → Nat :=
  fun j => if j = i then v else f j

/-- `u8::wrapping_add`. -/
def wadd8 (a b : Nat) : Nat := (a + b) % 256

/-- `u8::wrapping_sub`. -/
def wsub8 (a b : Nat) : Nat := (a % 256 + 256 - b % 256) % 256

/-! ## Keypad state (`src/backend/interfaces.rs`) -/

/-- `KeyState` from `src/backend/interfaces.rs`. -/
inductive KeyState where
  | Held
  | Released
deriving DecidableEq

/-- `KeypadState`: the current and previous snapshot of the 16 keys
(`KEY_COUNT = 16`). -/
structure KeypadState where
  state : Nat → KeyState
  last_state : Nat → KeyState

/-- `KeypadState::new`: every key `Released` in both snapshots. -/
def KeypadState.new : KeypadState :=
  ⟨fun _ => KeyState.Released, fun _ => KeyState.Released⟩

/-- `KeypadState::pressed`. -/
def KeypadState.pressed (k : KeypadState) (key : Nat) : Bool :=
  k.state key = KeyState.Held

/-- `KeypadState::pressed_key`: the lowest key index whose previous state is
`Held` and whose current state is `Released` (a falling edge). -/
def KeypadState.pressed_key (k : KeypadState) : Option Nat :=
  (List.range 16).find? fun i =>
    decide (k.last_state i = KeyState.Held) && decide (k.state i = KeyState.Released)

/-! ## Display buffer (`src/backend/interfaces.rs`) -/

/-- `DisplayOptions`. -/
structure DisplayOptions where
  clip_sprites : Bool
  half_pixel_scrolling : Bool

/-- `DisplayBuffer<W, H>`: the `H × W` pixel grid (`buffer r c` is row `r`,
column `c`), the dirty flag, the lores flag and the options. -/
structure DisplayBuffer (W H : Nat) where
  buffer : Nat → Nat → Bool
  dirty : Bool
  half_resolution : Bool
  options : DisplayOptions

/-- `DisplayBuffer::new`. -/
def DisplayBuffer.new (W H : Nat) (options : DisplayOptions) : DisplayBuffer W H :=
  ⟨fun _ _ => false, false, false, options⟩

/-- `DisplayBuffer::clear`: all pixels off, dirty set. -/
def DisplayBuffer.clear {W H : Nat} (d : DisplayBuffer W H) : DisplayBuffer W H :=
  { d with buffer := fun _ _ => false, dirty := true }

/-- One checked XOR write `buffer[i][j] ^= true` followed by the re-read
`buffer[i][j]` of the stored value; `none` models the index-out-of-bounds
panic. -/
def toggle (W H : Nat) (g : Nat → Nat → Bool) (i j : Nat) :
    Option ((Nat → Nat → Bool) × Bool) :=
  if i < H ∧ j < W then
    let g' : Nat → Nat → Bool := fun a b => if a = i ∧ b = j then !(g a b) else g a b
    some (g', g' i j)
  else none

/-- Bit `x` of `byte` in `bitvec` `Msb0` order over `width` bits. -/
def bitMsb (width byte x : Nat) : Bool := byte / 2 ^ (width - 1 - x) % 2 == 1

/-- The inner bit loop of `DisplayBuffer::draw`: processes bit indices
`x, x+1, ..., x+k-1` of `byte` for the row already mapped to display row
`cy`, threading the grid and the per-row `collided` flag.  A clip hit
(`cx == W`) breaks out of the loop. -/
def drawBits (W H : Nat) (clip halfRes : Bool) (scaling c0 cy byte : Nat) :
    Nat → Nat → (Nat → Nat → Bool) → Bool → Option ((Nat → Nat → Bool) × Bool)
  | _, 0, g, collided => some (g, collided)
  | x, k + 1, g, collided =>
    let cx := c0 + x * scaling
    if clip ∧ cx = W then some (g, collided)
    else
      let cxm := cx % W
      if bitMsb 8 byte x then
        if halfRes then
          match toggle W H g cy cxm with
          | none => none
          | some (g1, v1) =>
            match toggle W H g1 cy (cxm + 1) with
            | none => none
            | some (g2, v2) =>
              match toggle W H g2 (cy + 1) cxm with
              | none => none
              | some (g3, v3) =>
                match toggle W H g3 (cy + 1) (cxm + 1) with
                | none => none
                | some (g4, v4) =>
                  drawBits W H clip halfRes scaling c0 cy byte (x + 1) k g4
                    (collided || !v1 || !v2 || !v3 || !v4)
        else
          match toggle W H g cy cxm with
          | none => none
          | some (g', v) =>
            drawBits W H clip halfRes scaling c0 cy byte (x + 1) k g' (collided || !v)
      else drawBits W H clip halfRes scaling c0 cy byte (x + 1) k g collided

/-- The outer row loop of `DisplayBuffer::draw`: processes the sprite bytes
with running row index `y`, threading the grid and the colliding-row count.
A clip hit (`cy == H`) adds the unrendered rows and breaks. -/
def drawRows (W H : Nat) (clip halfRes : Bool) (scaling c0 c1 len : Nat) :
    Nat → List Nat → (Nat → Nat → Bool) → Nat → Option ((Nat → Nat → Bool) × Nat)
  | _, [], g, cnt => some (g, cnt)
  | y, byte :: rest, g, cnt =>
    let cy := c1 + y * scaling
    if clip ∧ cy = H then some (g, cnt + (len - y))
    else
      match drawBits W H clip halfRes scaling c0 (cy % H) byte 0 8 g false with
      | none => none
      | some (g', collided) =>
        drawRows W H clip halfRes scaling c0 c1 len (y + 1) rest g'
          (cnt + if collided then 1 else 0)

/-- The inner bit loop of `DisplayBuffer::draw_16x16` (16 bits, no scaling). -/
def draw16Bits (W H : Nat) (clip : Bool) (c0 cy row : Nat) :
    Nat → Nat → (Nat → Nat → Bool) → Bool → Option ((Nat → Nat → Bool) × Bool)
  | _, 0, g, collided => some (g, collided)
  | x, k + 1, g, collided =>
    let cx := c0 + x
    if clip ∧ cx = W then some (g, collided)
    else
      let cxm := cx % W
      if bitMsb 16 row x then
        match toggle W H g cy cxm with
        | none => none
        | some (g', v) =>
          draw16Bits W H clip c0 cy row (x + 1) k g' (collided || !v)
      else draw16Bits W H clip c0 cy row (x + 1) k g collided

/-- The outer row loop of `DisplayBuffer::draw_16x16`. -/
def draw16Rows (W H : Nat) (clip : Bool) (c0 c1 len : Nat) :
    Nat → List Nat → (Nat → Nat → Bool) → Nat → Option ((Nat → Nat → Bool) × Nat)
  | _, [], g, cnt => some (g, cnt)
  | y, row :: rest, g, cnt =>
    let cy := c1 + y
    if clip ∧ cy = H then some (g, cnt + (len - y))
    else
      match draw16Bits W H clip c0 (cy % H) row 0 16 g false with
      | none => none
      | some (g', collided) =>
        draw16Rows W H clip c0 c1 len (y + 1) rest g'
          (cnt + if collided then 1 else 0)

/-- `DisplayBuffer::draw_16x16`: draw sixteen 16-bit rows at the wrapped
coordinates; returns the updated buffer and the colliding-row count, or
`none` on an out-of-bounds panic. -/
def DisplayBuffer.draw_16x16 {W H : Nat} (d : DisplayBuffer W H)
    (coordinates : Nat × Nat) (sprite : List Nat) :
    Option (DisplayBuffer W H × Nat) :=
  let c0 := coordinates.1 % W
  let c1 := coordinates.2 % H
  match draw16Rows W H d.options.clip_sprites c0 c1 sprite.length 0 sprite d.buffer 0 with
  | none => none
  | some (g, n) => some ({ d with buffer := g, dirty := true }, n)

/-- `DisplayBuffer::draw`: a 32-byte sprite in hires mode is re-packed into
sixteen big-endian 16-bit rows and drawn via `draw_16x16`; otherwise the
sprite bytes are drawn 8 bits per row, scaled ×2 in `half_resolution` mode. -/
def DisplayBuffer.draw {W H : Nat} (d : DisplayBuffer W H)
    (coordinates : Nat × Nat) (sprite : List Nat) :
    Option (DisplayBuffer W H × Nat) :=
  if sprite.length = 32 ∧ d.half_resolution = false then
    d.draw_16x16 coordinates
      ((List.range 16).map fun i =>
        (sprite.getD (2 * i) 0 % 256) * 256 + sprite.getD (2 * i + 1) 0 % 256)
  else
    let scaling := if d.half_resolution then 2 else 1
    let c0 := coordinates.1 * scaling % W
    let c1 := coordinates.2 * scaling % H
    match drawRows W H d.options.clip_sprites d.half_resolution scaling c0 c1
        sprite.length 0 sprite d.buffer 0 with
    | none => none
    | some (g, n) => some ({ d with buffer := g, dirty := true }, n)

/-- The effective shift distance of a scroll: doubled when emulating lores
without half-pixel scrolling. -/
def DisplayBuffer.scrollShift {W H : Nat} (d : DisplayBuffer W H) (n : Nat) : Nat :=
  if d.half_resolution ∧ d.options.half_pixel_scrolling = false then 2 * n else n

/-- `DisplayBuffer::scroll_down`: for `i` in `(0..H-n).rev()`, copy row `i`
into row `i + n`, then blank row `i` when `i < n`. -/
def DisplayBuffer.scroll_down {W H : Nat} (d : DisplayBuffer W H) (n : Nat) :
    DisplayBuffer W H :=
  if n = 0 then d
  else
    let n := d.scrollShift n
    let g := (List.range (H - n)).reverse.foldl
      (fun g i =>
        let g1 : Nat → Nat → Bool := fun a b => if a = i + n then g i b else g a b
        if i < n then (fun a b => if a = i then false else g1 a b) else g1)
      d.buffer
    { d with dirty := true, buffer := g }

/-- `DisplayBuffer::scroll_up`: for `i` in `0..H-n`, copy row `i + n` into
row `i`, then blank row `i + n` when `i < n`. -/
def DisplayBuffer.scroll_up {W H : Nat} (d : DisplayBuffer W H) (n : Nat) :
    DisplayBuffer W H :=
  if n = 0 then d
  else
    let n := d.scrollShift n
    let g := (List.range (H - n)).foldl
      (fun g i =>
        let g1 : Nat → Nat → Bool := fun a b => if a = i then g (i + n) b else g a b
        if i < n then (fun a b => if a = i + n then false else g1 a b) else g1)
      d.buffer
    { d with dirty := true, buffer := g }

/-- `DisplayBuffer::scroll_left`: for every row `i` and `j` in `0..W-n`, copy
cell `j + n` into cell `j`, then blank cell `j + n` when `j + n > W - n`. -/
def DisplayBuffer.scroll_left {W H : Nat} (d : DisplayBuffer W H) (n : Nat) :
    DisplayBuffer W H :=
  if n = 0 then d
  else
    let n := d.scrollShift n
    let g := (List.range H).foldl
      (fun g i =>
        (List.range (W - n)).foldl
          (fun g j =>
            let g1 : Nat → Nat → Bool := fun a b => if a = i ∧ b = j then g i (j + n) else g a b
            if j + n > W - n then
              (fun a b => if a = i ∧ b = j + n then false else g1 a b)
            else g1)
          g)
      d.buffer
    { d with dirty := true, buffer := g }

/-- `DisplayBuffer::scroll_right`: for every row `i` and `j` in
`(0..W-n).rev()`, copy cell `j` into cell `j + n`, then blank cell `j` when
`j < n`. -/
def DisplayBuffer.scroll_right {W H : Nat} (d : DisplayBuffer W H) (n : Nat) :
    DisplayBuffer W H :=
  if n = 0 then d
  else
    let n := d.scrollShift n
    let g := (List.range H).foldl
      (fun g i =>
        (List.range (W - n)).reverse.foldl
          (fun g j =>
            let g1 : Nat → Nat → Bool := fun a b => if a = i ∧ b = j + n then g i j else g a b
            if j < n then (fun a b => if a = i ∧ b = j then false else g1 a b) else g1)
          g)
      d.buffer
    { d with dirty := true, buffer := g }

/-! ## Classic CHIP-8 backend (`src/backend/chip8.rs`) -/

/-- `Timers`. -/
structure Timers where
  delay : Nat
  sound : Nat
deriving DecidableEq

/-- The four behaviour quirks (`Options` in `src/backend/mod.rs`). -/
structure Options where
  copy_and_shift : Bool
  increment_address : Bool
  quirky_jump : Bool
  reset_flag : Bool
deriving DecidableEq

/-- `Registers`: the 12-bit address register `I` and the sixteen 8-bit
general registers. -/
structure Registers where
  address : Nat
  general : Nat → Nat

/-- The classic CHIP-8 backend state.  `rng` is the stream of bytes produced
by the host's `rand::random::<u8>()` calls and `rngIdx` counts how many have
been consumed; they model the ambient entropy source, not VM state. -/
structure Chip8 where
  display_buffer : Option (DisplayBuffer 64 32)
  index : Nat
  loaded : Bool
  memory : Nat → Nat
  options : Options
  registers : Registers
  stack : List Nat
  timers : Timers
  rng : Nat → Nat
  rngIdx : Nat

/-- `Backend::new` for the classic backend (plus the modelled RNG stream). -/
def Chip8.new (options : Options) (display_options : Option DisplayOptions)
    (rng : Nat → Nat) : Chip8 where
  display_buffer := display_options.map (DisplayBuffer.new 64 32)
  index := 512
  loaded := false
  memory := fun _ => 0
  options := options
  registers := ⟨0, fun _ => 0⟩
  stack := []
  timers := ⟨0, 0⟩
  rng := rng
  rngIdx := 0

/-- `Backend::reset` for the classic backend: PC back to 512, `I`, `V`,
stack and timers zeroed; memory, display and `loaded` untouched. -/
def Chip8.reset (st : Chip8) : Chip8 :=
  { st with
    index := 512
    registers := ⟨0, fun _ => 0⟩
    stack := []
    timers := ⟨0, 0⟩ }

/-- The `0x0` arm of `Backend::execute`: CLS (00E0), RET (00EE), and the
ignored 0NNN syscalls. -/
def Chip8.exec0 (st : Chip8) (index : Nat) (instr : Instruction) :
    Step (CtrlFlow × Chip8) :=
  if instr.operand_nnn = 0x0E0 then
    match st.display_buffer with
    | none => .fail ⟨some (index, some instr), .DisplayNotConnected⟩
    | some db => .ok (.Continue, { st with display_buffer := some db.clear })
  else if instr.operand_nnn = 0x0EE then
    match st.stack with
    | [] => .fail ⟨some (index, some instr), .StackUnderflow⟩
    | address :: rest => .ok (.Continue, { st with index := address, stack := rest })
  else .ok (.Continue, st)

/-- The `0x1 | 0x2` arm: JP and CALL (CALL pushes the already-advanced PC,
truncated to `u16`, after a stack-overflow check). -/
def Chip8.exec12 (st : Chip8) (index : Nat) (instr : Instruction) :
    Step (CtrlFlow × Chip8) :=
  if instr.operator_code = 2 then
    if st.stack.length = 16 then .fail ⟨some (index, some instr), .StackOverflow⟩
    else .ok (.Continue,
      { st with stack := st.index % 65536 :: st.stack, index := instr.operand_nnn })
  else .ok (.Continue, { st with index := instr.operand_nnn })

/-- The `0x3 | 0x4 | 0x5 | 0x9` arm: the four conditional skips. -/
def Chip8.execSkip (st : Chip8) (instr : Instruction) : Step (CtrlFlow × Chip8) :=
  let g := st.registers.general
  let skip : Bool :=
    if instr.operator_code = 3 then g instr.operand_x == instr.operand_nn
    else if instr.operator_code = 4 then g instr.operand_x != instr.operand_nn
    else if instr.operator_code = 5 then g instr.operand_x == g instr.operand_y
    else g instr.operand_x != g instr.operand_y
  if skip then .ok (.Continue, { st with index := st.index + 2 })
  else .ok (.Continue, st)

/-- The `0x6` arm: `V[x] ← NN`. -/
def Chip8.exec6 (st : Chip8) (instr : Instruction) : Step (CtrlFlow × Chip8) :=
  .ok (.Continue,
    { st with registers :=
        { st.registers with
          general := setF st.registers.general instr.operand_x instr.operand_nn } })

/-- The `0x7` arm: `V[x] ← V[x] + NN` with 8-bit wrap. -/
def Chip8.exec7 (st : Chip8) (instr : Instruction) : Step (CtrlFlow × Chip8) :=
  .ok (.Continue,
    { st with registers :=
        { st.registers with
          general := setF st.registers.general instr.operand_x
            (wadd8 (st.registers.general instr.operand_x) instr.operand_nn) } })

/-- The `0x8` arm: register-to-register ALU operations. -/
def Chip8.exec8 (st : Chip8) (index : Nat) (instr : Instruction) :
    Step (CtrlFlow × Chip8) :=
  let g := st.registers.general
  let x := instr.operand_x
  let y := instr.operand_y
  let n := instr.operand_n
  if n = 0 then
    .ok (.Continue,
      { st with registers := { st.registers with general := setF g x (g y) } })
  else if n = 1 ∨ n = 2 ∨ n = 3 then
    let g1 :=
      if n = 1 then setF g x (Nat.lor (g x) (g y))
      else if n = 2 then setF g x (Nat.land (g x) (g y))
      else setF g x (Nat.xor (g x) (g y))
    let g2 := if st.options.reset_flag then setF g1 15 0 else g1
    .ok (.Continue, { st with registers := { st.registers with general := g2 } })
  else if n = 4 then
    let sum := g x + g y
    let g1 := setF g x (sum % 256)
    let g2 := setF g1 15 (if 256 ≤ sum then 1 else 0)
    .ok (.Continue, { st with registers := { st.registers with general := g2 } })
  else if n = 5 ∨ n = 7 then
    let result := if n = 5 then wsub8 (g x) (g y) else wsub8 (g y) (g x)
    let flag : Nat :=
      if n = 5 then (if g x ≥ g y then 1 else 0) else (if g y ≥ g x then 1 else 0)
    let g1 := setF g x result
    let g2 := setF g1 15 flag
    .ok (.Continue, { st with registers := { st.registers with general := g2 } })
  else if n = 6 ∨ n = 14 then
    let g0 := if st.options.copy_and_shift then setF g x (g y) else g
    let result := if n = 6 then g0 x / 2 else g0 x * 2 % 256
    let flag := if n = 6 then g0 x % 2 else g0 x / 128
    let g1 := setF g0 x result
    let g2 := setF g1 15 flag
    .ok (.Continue, { st with registers := { st.registers with general := g2 } })
  else .fail ⟨some (index, some instr), .UnrecognizedInstruction⟩

/-- The `0xA` arm: `I ← NNN`. -/
def Chip8.execA (st : Chip8) (instr : Instruction) : Step (CtrlFlow × Chip8) :=
  .ok (.Continue, { st with registers := { st.registers with address := instr.operand_nnn } })

/-- The `0xB` arm: `PC ← V[quirky_jump ? x : 0] + NNN`. -/
def Chip8.execB (st : Chip8) (instr : Instruction) : Step (CtrlFlow × Chip8) :=
  let src := if st.options.quirky_jump then instr.operand_x else 0
  .ok (.Continue, { st with index := st.registers.general src + instr.operand_nnn })

/-- The `0xC` arm: `V[x] ← random_byte & NN`. -/
def Chip8.execC (st : Chip8) (instr : Instruction) : Step (CtrlFlow × Chip8) :=
  .ok (.Continue,
    { st with
      registers :=
        { st.registers with
          general := setF st.registers.general instr.operand_x
            (Nat.land (st.rng st.rngIdx % 256) instr.operand_nn) }
      rngIdx := st.rngIdx + 1 })

/-- The `0xD` arm: DRW with memory bounds check, display presence check and
collision flag; breaks the tick loop. -/
def Chip8.execD (st : Chip8) (index : Nat) (instr : Instruction) :
    Step (CtrlFlow × Chip8) :=
  if 4096 ≤ st.registers.address + instr.operand_n then
    .fail ⟨some (index, some instr), .MemoryOverflow⟩
  else
    match st.display_buffer with
    | none => .fail ⟨some (index, some instr), .DisplayNotConnected⟩
    | some db =>
      let sprite := (List.range instr.operand_n).map
        fun k => st.memory (st.registers.address + k)
      match db.draw (st.registers.general instr.operand_x,
          st.registers.general instr.operand_y) sprite with
      | none => .crash
      | some (db', colliding_rows) =>
        .ok (.Break,
          { st with
            display_buffer := some db'
            registers :=
              { st.registers with
                general := setF st.registers.general 15
                  (if 0 < colliding_rows then 1 else 0) } })

/-- The `0xE` arm: SKP / SKNP on the current keypad snapshot. -/
def Chip8.execE (st : Chip8) (index : Nat) (instr : Instruction)
    (ks : KeypadState) : Step (CtrlFlow × Chip8) :=
  if instr.operand_nn = 0x9E then
    let key := st.registers.general instr.operand_x
    if 16 ≤ key then .fail ⟨some (index, some instr), .UnrecognizedKey⟩
    else if ks.pressed key then .ok (.Continue, { st with index := st.index + 2 })
    else .ok (.Continue, st)
  else if instr.operand_nn = 0xA1 then
    let key := st.registers.general instr.operand_x
    if 16 ≤ key then .fail ⟨some (index, some instr), .UnrecognizedKey⟩
    else if ks.pressed key then .ok (.Continue, st)
    else .ok (.Continue, { st with index := st.index + 2 })
  else .fail ⟨some (index, some instr), .UnrecognizedInstruction⟩

/-- The FX07 arm: `V[x] <- delay_timer`. -/
def Chip8.execF07 (st : Chip8) (instr : Instruction) : Step (CtrlFlow × Chip8) :=
  .ok (.Continue,
    { st with registers :=
        { st.registers with
          general := setF st.registers.general instr.operand_x st.timers.delay } })

/-- The FX0A arm: store the released key and keep the advanced PC, or rewind
the PC to the instruction itself; break either way. -/
def Chip8.execF0A (st : Chip8) (index : Nat) (instr : Instruction)
    (ks : KeypadState) : Step (CtrlFlow × Chip8) :=
  match ks.pressed_key with
  | some key =>
    .ok (.Break,
      { st with registers :=
          { st.registers with general := setF st.registers.general instr.operand_x key } })
  | none => .ok (.Break, { st with index := index })

/-- The FX15 arm: `delay_timer <- V[x]`. -/
def Chip8.execF15 (st : Chip8) (instr : Instruction) : Step (CtrlFlow × Chip8) :=
  .ok (.Continue,
    { st with timers :=
        { st.timers with delay := st.registers.general instr.operand_x } })

/-- The FX18 arm: `sound_timer <- V[x]`. -/
def Chip8.execF18 (st : Chip8) (instr : Instruction) : Step (CtrlFlow × Chip8) :=
  .ok (.Continue,
    { st with timers :=
        { st.timers with sound := st.registers.general instr.operand_x } })

/-- The FX1E arm: `I <- (I + V[x]) & 0xFFF`. -/
def Chip8.execF1E (st : Chip8) (instr : Instruction) : Step (CtrlFlow × Chip8) :=
  .ok (.Continue,
    { st with registers :=
        { st.registers with
          address := (st.registers.address + st.registers.general instr.operand_x) % 4096 } })

/-- The FX29 arm: `I <- V[x] * 5` after the sprite-code check. -/
def Chip8.execF29 (st : Chip8) (index : Nat) (instr : Instruction) :
    Step (CtrlFlow × Chip8) :=
  let character_code := st.registers.general instr.operand_x
  if 16 ≤ character_code then
    .fail ⟨some (index, some instr), .UnrecognizedSprite⟩
  else
    .ok (.Continue,
      { st with registers := { st.registers with address := character_code * 5 } })

/-- The FX33 arm: BCD of `V[x]` into `mem[I..I+2]` after the bounds check. -/
def Chip8.execF33 (st : Chip8) (index : Nat) (instr : Instruction) :
    Step (CtrlFlow × Chip8) :=
  if 4096 ≤ st.registers.address + 2 then
    .fail ⟨some (index, some instr), .MemoryOverflow⟩
  else
    let number := st.registers.general instr.operand_x
    let m1 := setF st.memory st.registers.address (number / 10 / 10)
    let m2 := setF m1 (st.registers.address + 1) (number / 10 % 10)
    let m3 := setF m2 (st.registers.address + 2) (number % 10)
    .ok (.Continue, { st with memory := m3 })

/-- The FX55 arm: copy `V[0..=x]` to `mem[I..]`, then advance `I` under the
`increment_address` quirk. -/
def Chip8.execF55 (st : Chip8) (index : Nat) (instr : Instruction) :
    Step (CtrlFlow × Chip8) :=
  let x := instr.operand_x
  if 4096 ≤ st.registers.address + x then
    .fail ⟨some (index, some instr), .MemoryOverflow⟩
  else
    let m := (List.range (x + 1)).foldl
      (fun m i => setF m (st.registers.address + i) (st.registers.general i)) st.memory
    let addr :=
      if st.options.increment_address then st.registers.address + x + 1
      else st.registers.address
    .ok (.Continue,
      { st with memory := m, registers := { st.registers with address := addr } })

/-- The FX65 arm: copy `mem[I..]` into `V[0..=x]`, then advance `I` under the
`increment_address` quirk (its error carries the advanced PC, as in the
source). -/
def Chip8.execF65 (st : Chip8) (instr : Instruction) : Step (CtrlFlow × Chip8) :=
  let x := instr.operand_x
  if 4096 ≤ st.registers.address + x then
    .fail ⟨some (st.index, some instr), .MemoryOverflow⟩
  else
    let g' := (List.range (x + 1)).foldl
      (fun acc i => setF acc i (st.memory (st.registers.address + i)))
      st.registers.general
    let addr :=
      if st.options.increment_address then st.registers.address + x + 1
      else st.registers.address
    .ok (.Continue,
      { st with registers := { address := addr, general := g' } })

/-- The `0xF` arm: dispatch on `NN` to the timer, wait-for-key, `I`, BCD and
register-file operations above. -/
def Chip8.execF (st : Chip8) (index : Nat) (instr : Instruction)
    (ks : KeypadState) : Step (CtrlFlow × Chip8) :=
  let nn := instr.operand_nn
  if nn = 0x07 then st.execF07 instr
  else if nn = 0x0A then st.execF0A index instr ks
  else if nn = 0x15 then st.execF15 instr
  else if nn = 0x18 then st.execF18 instr
  else if nn = 0x1E then st.execF1E instr
  else if nn = 0x29 then st.execF29 index instr
  else if nn = 0x33 then st.execF33 index instr
  else if nn = 0x55 then st.execF55 index instr
  else if nn = 0x65 then st.execF65 instr
  else .fail ⟨some (index, some instr), .UnrecognizedInstruction⟩

/-- `Backend::execute` for the classic backend: dispatch on the top nibble
to the per-opcode arms above.  `index` is the address the instruction was
fetched from (the PC has already been advanced by 2). -/
def Chip8.execute (st : Chip8) (index : Nat) (instr : Instruction)
    (ks : KeypadState) : Step (CtrlFlow × Chip8) :=
  let op := instr.operator_code
  if op = 0 then st.exec0 index instr
  else if op = 1 ∨ op = 2 then st.exec12 index instr
  else if op = 3 ∨ op = 4 ∨ op = 5 ∨ op = 9 then st.execSkip instr
  else if op = 6 then st.exec6 instr
  else if op = 7 then st.exec7 instr
  else if op = 8 then st.exec8 index instr
  else if op = 10 then st.execA instr
  else if op = 11 then st.execB instr
  else if op = 12 then st.execC instr
  else if op = 13 then st.execD index instr
  else if op = 14 then st.execE index instr ks
  else if op = 15 then st.execF index instr ks
  else .fail ⟨some (index, some instr), .UnrecognizedInstruction⟩

/-- Modelled from the spec: `defaults::BACKEND_FONT` lives in
`src/defaults.rs`, which is not part of the provided sources.  The spec fixes
only its shape — 16 classic glyphs of 5 bytes followed by 10 hires glyphs of
10 bytes, 180 bytes in total — so the byte values are left as zeros; no
claim depends on them. -/
def BACKEND_FONT : List Nat := List.replicate 180 0

/-- `Backend::load` for the classic backend: reject programs longer than
`4096 - 512` bytes, copy the first 80 bytes of the font (`crash` models the
slicing panic when a supplied font is shorter than `FONT_SIZE`) and the
program at offset 512, and set `loaded`. -/
def Chip8.load (st : Chip8) (font : Option (List Nat)) (program : List Nat) :
    Step Chip8 :=
  if 4096 - 512 < program.length then .fail ⟨none, .ProgramInvalid⟩
  else
    let f := font.getD BACKEND_FONT
    if f.length < 80 then .crash
    else
      let m1 : Nat → Nat := fun i => if i < 80 then (f.take 80).getD i 0 else st.memory i
      let m2 : Nat → Nat := fun i =>
        if 512 ≤ i ∧ i < 512 + program.length then program.getD (i - 512) 0 else m1 i
      .ok { st with memory := m2, loaded := true }

/-- The per-tick instruction loop of `Backend::tick`: up to `n` iterations of
bounds-checked fetch, PC advance and `execute`, stopping early on `Break`. -/
def Chip8.tickLoop (ks : KeypadState) : Nat → Chip8 → Step Chip8
  | 0, st => .ok st
  | n + 1, st =>
    if 4096 ≤ st.index + 1 then .fail ⟨some (st.index, none), .MemoryOverflow⟩
    else
      let instr := Instruction.new (st.memory st.index) (st.memory (st.index + 1))
      let last_index := st.index
      let st1 := { st with index := st.index + 2 }
      match st1.execute last_index instr ks with
      | .crash => .crash
      | .fail e => .fail e
      | .ok (.Break, st2) => .ok st2
      | .ok (.Continue, st2) => Chip8.tickLoop ks n st2

/-- `Backend::tick` for the classic backend: fail when no program is loaded,
decrement both timers once (saturating), then run the instruction loop. -/
def Chip8.tick (st : Chip8) (n : Nat) (ks : KeypadState) : Step Chip8 :=
  if st.loaded = false then .fail ⟨none, .ProgramNotLoaded⟩
  else
    Chip8.tickLoop ks n
      { st with timers := ⟨st.timers.delay - 1, st.timers.sound - 1⟩ }

/-! ## SUPER-CHIP overlay (`src/backend/super_chip.rs`) -/

/-- The SUPER-CHIP backend: a 128×64 display, the wrapped classic core, and
the HALT latch. -/
structure SuperChip where
  display_buffer : DisplayBuffer 128 64
  inner : Chip8
  program_exited : Bool

/-- `Backend::new` for the SUPER-CHIP backend: a fresh lores display and a
classic core with no display of its own. -/
def SuperChip.new (options : Options) (display_options : DisplayOptions)
    (rng : Nat → Nat) : SuperChip where
  display_buffer :=
    { DisplayBuffer.new 128 64 display_options with half_resolution := true }
  inner := Chip8.new options none rng
  program_exited := false

/-- `Backend::reset` for the SUPER-CHIP backend: clear the HALT latch and
reset the inner core; the display buffer is untouched. -/
def SuperChip.reset (sc : SuperChip) : SuperChip :=
  { sc with program_exited := false, inner := sc.inner.reset }

/-- `Backend::execute` for the SUPER-CHIP backend: the intercepted opcodes
(CLS, HALT, LORES, HIRES, DXYN, FX29, FX30, FX75, FX85), everything else
delegated to the classic core.  The persistent storage buffer is threaded
through explicitly; `crash` models the `copy_from_slice` length-mismatch
panics of FX75/FX85. -/
def SuperChip.execute (sc : SuperChip) (index : Nat) (instr : Instruction)
    (ks : KeypadState) (persistent_storage : List Nat) :
    Step (CtrlFlow × SuperChip × List Nat) :=
  let op := instr.operator_code
  if op = 0 ∧ instr.operand_nnn = 0x0E0 then
    .ok (.Continue, { sc with display_buffer := sc.display_buffer.clear },
      persistent_storage)
  else if op = 0 ∧ instr.operand_nnn = 0x0FD then
    .ok (.Break, { sc with program_exited := true }, persistent_storage)
  else if op = 0 ∧ instr.operand_nnn = 0x0FE then
    .ok (.Continue,
      { sc with display_buffer := { sc.display_buffer with half_resolution := true } },
      persistent_storage)
  else if op = 0 ∧ instr.operand_nnn = 0x0FF then
    .ok (.Continue,
      { sc with display_buffer := { sc.display_buffer with half_resolution := false } },
      persistent_storage)
  else if op = 13 then
    let n :=
      if sc.display_buffer.half_resolution = false ∧ instr.operand_n = 0 then 32
      else instr.operand_n
    if 4096 ≤ sc.inner.registers.address + n then
      .fail ⟨some (index, some instr), .MemoryOverflow⟩
    else
      let g := sc.inner.registers.general
      let sprite := (List.range n).map
        fun k => sc.inner.memory (sc.inner.registers.address + k)
      match sc.display_buffer.draw (g instr.operand_x, g instr.operand_y) sprite with
      | none => .crash
      | some (db', colliding_rows) =>
        let flag :=
          if sc.display_buffer.half_resolution then
            if 0 < colliding_rows then 1 else 0
          else colliding_rows % 256
        .ok (.Continue,
          { sc with
            display_buffer := db'
            inner :=
              { sc.inner with registers :=
                  { sc.inner.registers with general := setF g 15 flag } } },
          persistent_storage)
  else if op = 15 ∧ instr.operand_nn = 0x29 then
    let character_code := sc.inner.registers.general instr.operand_x
    if character_code < 16 then
      .ok (.Continue,
        { sc with inner :=
            { sc.inner with registers :=
                { sc.inner.registers with address := character_code * 5 } } },
        persistent_storage)
    else if Nat.land character_code 0x10 = 0 ∨ 10 ≤ Nat.land character_code 0xF then
      .fail ⟨some (index, some instr), .UnrecognizedSprite⟩
    else
      .ok (.Continue,
        { sc with inner :=
            { sc.inner with registers :=
                { sc.inner.registers with
                  address := 80 + Nat.land character_code 0xF * 10 } } },
        persistent_storage)
  else if op = 15 ∧ instr.operand_nn = 0x30 then
    let character_code := sc.inner.registers.general instr.operand_x
    if 10 ≤ character_code then
      .fail ⟨some (index, some instr), .UnrecognizedSprite⟩
    else
      .ok (.Continue,
        { sc with inner :=
            { sc.inner with registers :=
                { sc.inner.registers with address := 80 + character_code * 10 } } },
        persistent_storage)
  else if op = 15 ∧ instr.operand_nn = 0x75 then
    let registers := (List.range (min instr.operand_x 7 + 1)).map
      sc.inner.registers.general
    if persistent_storage.length = registers.length then
      .ok (.Continue, sc, registers)
    else .crash
  else if op = 15 ∧ instr.operand_nn = 0x85 then
    if persistent_storage.length < 8 then .crash
    else if min instr.operand_x 7 + 1 = 8 then
      let g' : Nat → Nat := fun i =>
        if i < min instr.operand_x 7 + 1 then persistent_storage.getD i 0
        else sc.inner.registers.general i
      .ok (.Continue,
        { sc with inner :=
            { sc.inner with registers :=
                { sc.inner.registers with general := g' } } },
        persistent_storage)
    else .crash
  else
    match sc.inner.execute index instr ks with
    | .crash => .crash
    | .fail e => .fail e
    | .ok (fl, inner') => .ok (fl, { sc with inner := inner' }, persistent_storage)

/-- The per-tick instruction loop of the SUPER-CHIP `Backend::tick`. -/
def SuperChip.tickLoop (ks : KeypadState) :
    Nat → SuperChip → List Nat → Step (SuperChip × List Nat)
  | 0, sc, storage => .ok (sc, storage)
  | n + 1, sc, storage =>
    if 4096 ≤ sc.inner.index + 1 then .fail ⟨some (sc.inner.index, none), .MemoryOverflow⟩
    else
      let instr := Instruction.new (sc.inner.memory sc.inner.index)
        (sc.inner.memory (sc.inner.index + 1))
      let last_index := sc.inner.index
      let sc1 := { sc with inner := { sc.inner with index := sc.inner.index + 2 } }
      match sc1.execute last_index instr ks storage with
      | .crash => .crash
      | .fail e => .fail e
      | .ok (.Break, sc2, storage2) => .ok (sc2, storage2)
      | .ok (.Continue, sc2, storage2) => SuperChip.tickLoop ks n sc2 storage2

/-- `Backend::tick` for the SUPER-CHIP backend. -/
def SuperChip.tick (sc : SuperChip) (n : Nat) (ks : KeypadState)
    (persistent_storage : List Nat) : Step (SuperChip × List Nat) :=
  if sc.inner.loaded = false then .fail ⟨none, .ProgramNotLoaded⟩
  else
    SuperChip.tickLoop ks n
      { sc with inner :=
          { sc.inner with
            timers := ⟨sc.inner.timers.delay - 1, sc.inner.timers.sound - 1⟩ } }
      persistent_storage

/-! ## Legacy monolithic backend (`src/backend/mod.rs`) -/

/-- The 8XY5 arm of the legacy `Backend::tick` in `src/backend/mod.rs`
(lines 246–274): `result = V[x].wrapping_sub(V[y])`, `flag = V[x] > V[y]`
(strict), both latched before `V[x]` and then `V[0xF]` are written. -/
def legacySub8XY5 (general : Nat → Nat) (x y : Nat) : Nat → Nat :=
  let result := wsub8 (general x) (general y)
  let flag : Nat := if general x > general y then 1 else 0
  setF (setF general x result) 15 flag

/-! ## Concrete instances used by counterexamples and witnesses -/

/-- An all-released keypad. -/
def ks0 : KeypadState := KeypadState.new

/-- A keypad in which key 5 was held on the previous snapshot and is
released now (a falling edge on key 5). -/
def ksEdge : KeypadState :=
  ⟨fun _ => KeyState.Released,
   fun i => if i = 5 then KeyState.Held else KeyState.Released⟩

/-- Memory holding `program` at offset 512 and zeros elsewhere. -/
def mkMem (program : List Nat) : Nat → Nat :=
  fun i => if 512 ≤ i ∧ i < 512 + program.length then program.getD (i - 512) 0 else 0

/-- A classic backend with default options, a connected display, and
`program` loaded at offset 512. -/
def loadedState (program : List Nat) : Chip8 :=
  { Chip8.new ⟨true, true, false, true⟩ (some ⟨true, false⟩) (fun _ => 0) with
    loaded := true, memory := mkMem program }

/-- `V0 = 0xFE` then `BFFF`: jumps to `0xFE + 0xFFF = 4349`. -/
def ce3 : Chip8 := loadedState [0x60, 0xFE, 0xBF, 0xFF]

/-- `V0 = 5` then `F015`: writes 5 into the delay timer. -/
def ce6 : Chip8 := loadedState [0x60, 0x05, 0xF0, 0x15]

/-- A loaded classic backend whose display has the pixel (0, 0) lit. -/
def ce2 : Chip8 :=
  { loadedState [] with
    display_buffer := some
      { DisplayBuffer.new 64 32 ⟨true, false⟩ with
        buffer := fun i j => i == 0 && j == 0 } }

/-- A 64×32 hires display with only the pixel at row 0, column 63 lit. -/
def dRight : DisplayBuffer 64 32 :=
  { DisplayBuffer.new 64 32 ⟨true, false⟩ with buffer := fun i j => i == 0 && j == 63 }

/-- A 64×32 hires display with only the pixel at row 31, column 0 lit. -/
def dBot : DisplayBuffer 64 32 :=
  { DisplayBuffer.new 64 32 ⟨true, false⟩ with buffer := fun i j => i == 31 && j == 0 }

/-- An empty 64×32 hires display with clipping on. -/
def dEmpty : DisplayBuffer 64 32 := DisplayBuffer.new 64 32 ⟨true, false⟩

/-- A 64×32 hires display with only the pixel (0, 0) lit. -/
def dPix : DisplayBuffer 64 32 :=
  { dEmpty with buffer := fun i j => i == 0 && j == 0 }

/-- A register file with `V0 = V1 = 5`. -/
def g55 : Nat → Nat := fun i => if i = 0 ∨ i = 1 then 5 else 0

/-- A SUPER-CHIP backend with the default options. -/
def scDefault : SuperChip :=
  SuperChip.new ⟨false, false, true, false⟩ ⟨true, false⟩ (fun _ => 0)

/-! ## Claim predicates

Each `claimCk...` definition is a direct formalisation of the corresponding
spec claim, used to state its refutation at a concrete input. -/

/-- C2 as stated, at one state: `reset` restores PC 512, zeroes `V`, `I`,
stack and timers, clears every display pixel, and keeps memory. -/
def claimC2At (st : Chip8) : Prop :=
  st.reset.index = 512 ∧ (∀ i, st.reset.registers.general i = 0) ∧
  st.reset.registers.address = 0 ∧ st.reset.stack = [] ∧
  st.reset.timers = ⟨0, 0⟩ ∧
  (∀ db, st.reset.display_buffer = some db → ∀ i j, db.buffer i j = false) ∧
  (∀ i, st.reset.memory i = st.memory i)

/-- C3 as stated, at one start state: after any successful `tick` the PC is
even and below 4096. -/
def claimC3At (st : Chip8) : Prop :=
  ∀ n st', st.tick n ks0 = .ok st' → st'.index % 2 = 0 ∧ st'.index < 4096

/-- C6 as stated, at one start state: after any successful `tick(n)`, both
timers equal `max(prev - 1, 0)`, regardless of `n`. -/
def claimC6At (st : Chip8) : Prop :=
  ∀ n st', st.tick n ks0 = .ok st' →
    st'.timers.delay = st.timers.delay - 1 ∧ st'.timers.sound = st.timers.sound - 1

/-- C8 as stated, at one display, coordinate pair and sprite: drawing twice
restores every pixel, and the second draw reports a collision whenever the
sprite has a set bit. -/
def claimC8At {W H : Nat} (d : DisplayBuffer W H) (c : Nat × Nat)
    (sprite : List Nat) : Prop :=
  ∀ d1 k1, d.draw c sprite = some (d1, k1) →
    ∃ d2 k2, d1.draw c sprite = some (d2, k2) ∧
      (∀ i j, d2.buffer i j = d.buffer i j) ∧
      ((∃ y ∈ sprite, y % 256 ≠ 0) → 1 ≤ k2)

/-! ## State invariants

The Rust types guarantee that registers, memory bytes and timers hold `u8`
values and that stack entries are `u16` values pushed from bounded PCs; in
the `Nat` model these become explicit invariants. -/

/-- Every general register holds a byte. -/
def RegInv (st : Chip8) : Prop := ∀ i, st.registers.general i < 256

/-- Every memory cell holds a byte. -/
def MemInv (st : Chip8) : Prop := ∀ i, st.memory i < 256

/-- Both timers hold bytes. -/
def TimerInv (st : Chip8) : Prop := st.timers.delay < 256 ∧ st.timers.sound < 256

/-- Every stack entry is a pushed PC value, bounded by 4096. -/
def StackInv (st : Chip8) : Prop := ∀ a ∈ st.stack, a ≤ 4096

/-- The combined byte/stack invariant of a classic backend state. -/
def VmInv (st : Chip8) : Prop := RegInv st ∧ MemInv st ∧ TimerInv st ∧ StackInv st

/-- The instruction writes a timer (FX15 or FX18). -/
def timerWrite (i : Instruction) : Prop :=
  i.operator_code = 15 ∧ (i.operand_nn = 0x15 ∨ i.operand_nn = 0x18)

/-- The instruction is FX55, the only opcode that can copy arbitrary bytes
into memory. -/
def storeWrite (i : Instruction) : Prop :=
  i.operator_code = 15 ∧ i.operand_nn = 0x55

/-- No byte pair in memory decodes to a timer-writing opcode (FX15/FX18) or
to FX55 (which could manufacture one). -/
def NoBad (m : Nat → Nat) : Prop :=
  ∀ a, ¬(timerWrite (Instruction.new (m a) (m (a + 1))) ∨
         storeWrite (Instruction.new (m a) (m (a + 1))))

/-- The conclusions of the per-instruction preservation lemma: the new PC is
below 4351, the byte/stack invariants still hold, the timers are untouched
unless the instruction is FX15/FX18, and a memory with no timer-writing or
FX55 pairs stays that way unless the instruction is FX55. -/
def ExecOk (st st' : Chip8) (instr : Instruction) : Prop :=
  st'.index ≤ 4350 ∧ VmInv st' ∧
  (¬ timerWrite instr → st'.timers = st.timers) ∧
  (NoBad st.memory → ¬ storeWrite instr → NoBad st'.memory)

/-! ## Decode and update helper lemmas -/

theorem Instruction.op_new (a b : Nat) :
    (Instruction.new a b).operator_code = a % 256 / 16 := by
  simp only [Instruction.new, Instruction.operator_code]
  omega

theorem Instruction.x_new (a b : Nat) :
    (Instruction.new a b).operand_x = a % 16 := by
  simp only [Instruction.new, Instruction.operand_x]
  omega

theorem Instruction.y_new (a b : Nat) :
    (Instruction.new a b).operand_y = b % 256 / 16 := by
  simp only [Instruction.new, Instruction.operand_y]
  omega

theorem Instruction.n_new (a b : Nat) :
    (Instruction.new a b).operand_n = b % 16 := by
  simp only [Instruction.new, Instruction.operand_n]
  omega

theorem Instruction.nn_new (a b : Nat) :
    (Instruction.new a b).operand_nn = b % 256 := by
  simp only [Instruction.new, Instruction.operand_nn]
  omega

theorem Instruction.nnn_new (a b : Nat) :
    (Instruction.new a b).operand_nnn = a % 16 * 256 + b % 256 := by
  simp only [Instruction.new, Instruction.operand_nnn]
  omega

theorem setF_same (f : Nat → Nat) (i v : Nat) : setF f i v i = v := by
  simp [setF]

theorem setF_other (f : Nat → Nat) {i j : Nat} (v : Nat) (h : j ≠ i) :
    setF f i v j = f j := by
  simp [setF, h]

theorem setF_lt (f : Nat → Nat) (i v : Nat) (hf : ∀ j, f j < 256)
    (hv : v < 256) : ∀ j, setF f i v j < 256 := by
  intro j
  by_cases h : j = i <;> simp [setF, h, hf, hv]

theorem nn_lt (i : Instruction) : i.operand_nn < 256 := by
  simp only [Instruction.operand_nn]; omega

theorem nnn_lt (i : Instruction) : i.operand_nnn < 4096 := by
  simp only [Instruction.operand_nnn]; omega

theorem x_lt (i : Instruction) : i.operand_x < 16 := by
  simp only [Instruction.operand_x]; omega

theorem n_lt (i : Instruction) : i.operand_n < 16 := by
  simp only [Instruction.operand_n]; omega

theorem wadd8_lt (a b : Nat) : wadd8 a b < 256 := by
  simp only [wadd8]; omega

theorem wsub8_lt (a b : Nat) : wsub8 a b < 256 := by
  simp only [wsub8]; omega

theorem ite01_lt (c : Prop) [Decidable c] : (if c then (1 : Nat) else 0) < 256 := by
  split <;> omega

theorem lor_lt {a b : Nat} (ha : a < 256) (hb : b < 256) : Nat.lor a b < 256 := by
  have := Nat.or_lt_two_pow (n := 8) ha hb
  simpa using this

theorem xor_lt {a b : Nat} (ha : a < 256) (hb : b < 256) : Nat.xor a b < 256 := by
  have := Nat.xor_lt_two_pow (n := 8) ha hb
  simpa using this

theorem land_lt {b : Nat} (a : Nat) (hb : b < 256) : Nat.land a b < 256 :=
  lt_of_le_of_lt Nat.and_le_right hb

theorem find?_range_min {p : Nat → Bool} {n a : Nat}
    (h : (List.range n).find? p = some a) :
    p a = true ∧ a < n ∧ ∀ j, j < a → p j = false := by
  induction n with
  | zero => simp [List.find?] at h
  | succ m ih =>
    rw [List.range_succ, List.find?_append] at h
    cases hm : (List.range m).find? p with
    | some b =>
      rw [hm] at h
      obtain rfl : b = a := by simpa using h
      obtain ⟨h1, h2, h3⟩ := ih hm
      exact ⟨h1, Nat.lt_succ_of_lt h2, h3⟩
    | none =>
      rw [hm] at h
      have h' : List.find? p [m] = some a := by simpa using h
      cases hpm : p m with
      | false => simp [List.find?, hpm] at h'
      | true =>
        obtain rfl : m = a := by simpa [List.find?, hpm] using h'
        refine ⟨hpm, Nat.lt_succ_self m, ?_⟩
        intro j hj
        have := List.find?_eq_none.mp hm j (by simpa [List.mem_range] using hj)
        simpa using this

theorem pressed_key_some {ks : KeypadState} {k : Nat}
    (h : ks.pressed_key = some k) : k < 16 :=
  (find?_range_min h).2.1

theorem foldl_store_lt (m g : Nat → Nat) (addr k : Nat)
    (hm : ∀ j, m j < 256) (hg : ∀ j, g j < 256) :
    ∀ j, ((List.range k).foldl (fun acc i => setF acc (addr + i) (g i)) m) j < 256 := by
  induction k generalizing m with
  | zero => simpa using hm
  | succ k2 ih =>
    intro j
    rw [List.range_succ, List.foldl_append]
    simp only [List.foldl_cons, List.foldl_nil]
    exact setF_lt _ _ _ (ih m hm) (hg _) j

theorem foldl_load_lt (g m : Nat → Nat) (addr k : Nat)
    (hg : ∀ j, g j < 256) (hm : ∀ j, m j < 256) :
    ∀ j, ((List.range k).foldl (fun acc i => setF acc i (m (addr + i))) g) j < 256 := by
  induction k generalizing g with
  | zero => simpa using hg
  | succ k2 ih =>
    intro j
    rw [List.range_succ, List.foldl_append]
    simp only [List.foldl_cons, List.foldl_nil]
    exact setF_lt _ _ _ (ih g hg) (hm _) j

theorem noBad_setF_digit {m : Nat → Nat} (hnb : NoBad m) (pos d : Nat)
    (hd : d < 10) : NoBad (setF m pos d) := by
  intro a
  have hn := hnb a
  simp only [timerWrite, storeWrite, Instruction.op_new, Instruction.nn_new] at hn ⊢
  by_cases h1 : a = pos
  · subst h1
    rw [setF_same]
    intro hcontra
    rcases hcontra with ⟨hop, _⟩ | ⟨hop, _⟩ <;> omega
  · rw [setF_other _ _ h1]
    by_cases h2 : a + 1 = pos
    · rw [h2, setF_same]
      intro hcontra
      rcases hcontra with ⟨_, hnn⟩ | ⟨_, hnn⟩ <;> omega
    · rw [setF_other _ _ h2]
      exact hn

/-! ## C2: `reset` -/

/-- C2, counterexample: `reset` does not clear the display.  On the loaded
backend `ce2`, whose pixel (0, 0) is lit, the pixel is still lit after
`reset`, refuting the claim as stated. -/
theorem c2_counterexample : ¬ claimC2At ce2 := by
  intro h
  have hdb := h.2.2.2.2.2.1
    { DisplayBuffer.new 64 32 ⟨true, false⟩ with
      buffer := fun i j => i == 0 && j == 0 } rfl 0 0
  simp at hdb

/-- C2, amended: `reset` sets the PC back to 512 and zeroes `V`, `I`, the
stack and both timers, and it leaves memory, the display buffer, the loaded
flag and the options untouched (the display is not cleared).  The SUPER-CHIP
`reset` additionally clears `program_exited` and resets the inner core,
leaving its own display buffer untouched. -/
theorem c2_amended :
    (∀ st : Chip8,
      st.reset.index = 512 ∧ st.reset.registers.address = 0 ∧
      (∀ i, st.reset.registers.general i = 0) ∧ st.reset.stack = [] ∧
      st.reset.timers.delay = 0 ∧ st.reset.timers.sound = 0 ∧
      st.reset.memory = st.memory ∧ st.reset.display_buffer = st.display_buffer ∧
      st.reset.loaded = st.loaded ∧ st.reset.options = st.options) ∧
    (∀ sc : SuperChip,
      sc.reset.program_exited = false ∧ sc.reset.display_buffer = sc.display_buffer ∧
      sc.reset.inner = sc.inner.reset) :=
  ⟨fun _ => ⟨rfl, rfl, fun _ => rfl, rfl, rfl, rfl, rfl, rfl, rfl, rfl⟩,
   fun _ => ⟨rfl, rfl, rfl⟩⟩

/-! ## C1: FX75 -/

/-- C1: executing FX75 with `x = 0` against the caller's 8-byte persistent
storage panics: the source copies the 1-byte register slice `V[0..=0]` into
the whole 8-byte buffer with `copy_from_slice`, which requires equal
lengths.  The claim says the instruction stores `min(x, 7) + 1` bytes and
never fails or panics. -/
theorem c1_fx75_crash :
    scDefault.execute 512 (Instruction.new 0xF0 0x75) ks0 (List.replicate 8 0) =
      Step.crash := by
  rfl

/-! ## C5: 8XY5 flag -/

/-- C5: the legacy backend in `src/backend/mod.rs` computes the 8XY5 flag
with a strict `>`.  With `V0 = V1 = 5` (so `V[x] ≥ V[y]` holds and the claim
requires `V[F] = 1`), it leaves `V[F] = 0`; the subtraction result itself
(`V0 = 0`) is correct. -/
theorem c5_legacy_flag :
    legacySub8XY5 g55 0 1 15 = 0 ∧ legacySub8XY5 g55 0 1 0 = 0 ∧ g55 0 ≥ g55 1 := by
  exact ⟨rfl, rfl, le_refl 5⟩

/-! ## C4: scrolling -/

/-- C4: `scroll_left` and `scroll_up` leave stale pixels in the vacated
cells.  Scrolling `dRight` (single pixel at row 0, column 63) left by 1
duplicates the pixel to column 62 while the vacated column 63 keeps it;
scrolling `dBot` (single pixel at row 31, column 0) up by 1 copies the pixel
to row 30 while the vacated row 31 keeps it.  The claim says every vacated
cell becomes 0. -/
theorem c4_scroll_stale :
    (dRight.scroll_left 1).buffer 0 63 = true ∧
    (dRight.scroll_left 1).buffer 0 62 = true ∧
    (dBot.scroll_up 1).buffer 31 0 = true ∧
    (dBot.scroll_up 1).buffer 30 0 = true := by
  refine ⟨?_, ?_, ?_, ?_⟩ <;> decide

/-! ## C10: `load` frame conditions -/

/-- C10: `Backend::load` writes exactly the first 80 font bytes and the
program bytes at offsets 512 … 512+len, leaves every other memory byte and
every non-memory field unchanged, and sets `loaded`; in particular the bytes
of a previously loaded longer program beyond the new program's end survive. -/
theorem c10_load_frame (st : Chip8) (font : Option (List Nat)) (program : List Nat)
    (hlen : program.length ≤ 3584)
    (hfont : 80 ≤ (font.getD BACKEND_FONT).length) :
    ∃ st', st.load font program = .ok st' ∧
      st'.loaded = true ∧
      (∀ i, i < 80 → st'.memory i = (font.getD BACKEND_FONT).getD i 0) ∧
      (∀ i, 512 ≤ i → i < 512 + program.length →
        st'.memory i = program.getD (i - 512) 0) ∧
      (∀ i, 80 ≤ i → i < 512 ∨ 512 + program.length ≤ i → st'.memory i = st.memory i) ∧
      st'.index = st.index ∧ st'.registers = st.registers ∧ st'.stack = st.stack ∧
      st'.timers = st.timers ∧ st'.display_buffer = st.display_buffer ∧
      st'.options = st.options := by
  unfold Chip8.load
  rw [if_neg (by omega), if_neg (by omega)]
  refine ⟨_, rfl, rfl, ?_, ?_, ?_, rfl, rfl, rfl, rfl, rfl, rfl⟩
  · intro i hi
    simp only [if_pos hi, if_neg (by omega : ¬(512 ≤ i ∧ i < 512 + program.length))]
    simp [List.getD, List.getElem?_take, hi]
  · intro i h1 h2
    simp [h1, h2]
  · intro i h1 h2
    have : ¬(512 ≤ i ∧ i < 512 + program.length) := by omega
    simp only [if_neg this, if_neg (by omega : ¬ i < 80)]

/-- C10, witness: loading the 3-byte program `[1, 2, 3]` with the default
font into a fresh backend. -/
theorem c10_witness :
    ([1, 2, 3] : List Nat).length ≤ 3584 ∧
    80 ≤ ((none : Option (List Nat)).getD BACKEND_FONT).length ∧
    ∃ st', (loadedState []).load none [1, 2, 3] = .ok st' ∧
      st'.loaded = true ∧
      (∀ i, i < 80 → st'.memory i = ((none : Option (List Nat)).getD BACKEND_FONT).getD i 0) ∧
      (∀ i, 512 ≤ i → i < 512 + ([1, 2, 3] : List Nat).length →
        st'.memory i = ([1, 2, 3] : List Nat).getD (i - 512) 0) ∧
      (∀ i, 80 ≤ i → i < 512 ∨ 512 + ([1, 2, 3] : List Nat).length ≤ i →
        st'.memory i = (loadedState []).memory i) ∧
      st'.index = (loadedState []).index ∧ st'.registers = (loadedState []).registers ∧
      st'.stack = (loadedState []).stack ∧ st'.timers = (loadedState []).timers ∧
      st'.display_buffer = (loadedState []).display_buffer ∧
      st'.options = (loadedState []).options := by
  refine ⟨by decide, ?_, ?_⟩
  · simp [BACKEND_FONT]
  · exact c10_load_frame (loadedState []) none [1, 2, 3] (by decide)
      (by simp [BACKEND_FONT])

/-! ## C3 and C6 counterexamples -/

/-- C3, counterexample: the loaded program `60 FE BF FF` (set `V0 = 0xFE`,
then `BNNN` with `NNN = 0xFFF` under the default non-quirky jump) finishes
`tick(2)` without error with `PC = 0xFE + 0xFFF = 4349`, which is odd and
not below 4096. -/
theorem c3_counterexample : ¬ claimC3At ce3 := by
  intro h
  exact absurd (h 2 _ rfl) (by decide)

/-- C6, counterexample: the loaded program `60 05 F0 15` (set `V0 = 5`, then
`FX15`) finishes `tick(2)` with `delay_timer = 5`, while the claim demands
`max(0 - 1, 0) = 0` for the starting state `ce6` whose timers are 0. -/
theorem c6_counterexample : ¬ claimC6At ce6 := by
  intro h
  exact absurd (h 2 _ rfl) (by decide)

/-! ## C7: FX0A -/

/-- C7: executing FX0A.  When the keypad records a falling edge, the lowest
such key index is stored into `V[x]` and the advanced PC is kept; otherwise
the PC is rewound to the FX0A instruction itself.  In both cases the
instruction loop breaks at once (the result does not depend on how many
instructions `n + 1` the tick requested), and in the no-release case the PC
after the tick equals the PC before it. -/
theorem c7_fx0a (st : Chip8) (ks : KeypadState) (x n : Nat)
    (hload : st.loaded = true) (hx : x < 16)
    (hpc : st.index + 1 < 4096)
    (hm0 : st.memory st.index = 240 + x)
    (hm1 : st.memory (st.index + 1) = 0x0A) :
    ∃ st', st.tick (n + 1) ks = .ok st' ∧
      st'.timers.delay = st.timers.delay - 1 ∧
      st'.timers.sound = st.timers.sound - 1 ∧
      st'.memory = st.memory ∧ st'.stack = st.stack ∧
      st'.display_buffer = st.display_buffer ∧
      st'.registers.address = st.registers.address ∧
      (∀ key, ks.pressed_key = some key →
        st'.index = st.index + 2 ∧
        st'.registers.general = setF st.registers.general x key ∧
        ks.last_state key = KeyState.Held ∧ ks.state key = KeyState.Released ∧
        ∀ j, j < key →
          ¬(ks.last_state j = KeyState.Held ∧ ks.state j = KeyState.Released)) ∧
      (ks.pressed_key = none →
        st'.index = st.index ∧ st'.registers.general = st.registers.general) := by
  have hop : (Instruction.new (st.memory st.index) (st.memory (st.index + 1))).operator_code = 15 := by
    rw [hm0, hm1, Instruction.op_new]; omega
  have hnn : (Instruction.new (st.memory st.index) (st.memory (st.index + 1))).operand_nn = 0x0A := by
    rw [hm0, hm1, Instruction.nn_new]
  have hxx : (Instruction.new (st.memory st.index) (st.memory (st.index + 1))).operand_x = x := by
    rw [hm0, hm1, Instruction.x_new]; omega
  rw [Chip8.tick, if_neg (by simp [hload]), Chip8.tickLoop]
  simp only
  rw [if_neg (by omega)]
  simp only [Chip8.execute, Chip8.execF, Chip8.execF0A, hop, hnn, hxx]
  norm_num
  cases hpk : ks.pressed_key with
  | some key =>
    refine ⟨_, rfl, rfl, rfl, rfl, rfl, rfl, rfl, ?_, by simp⟩
    intro k hk
    obtain rfl : key = k := by injection hk
    obtain ⟨hp, _, hmin⟩ := find?_range_min hpk
    simp only [Bool.and_eq_true, decide_eq_true_eq] at hp
    refine ⟨rfl, rfl, hp.1, hp.2, ?_⟩
    intro j hj h1 h2
    have := hmin j hj
    rw [h1, h2] at this
    simp at this
  | none =>
    refine ⟨_, rfl, rfl, rfl, rfl, rfl, rfl, rfl, by simp, ?_⟩
    intro _
    exact ⟨rfl, rfl⟩

/-- C7, witness: a concrete loaded backend whose program is a single FX0A
(`F5 0A` at 0x200), ticked against the all-released keypad `ks0` (no falling
edge, so the PC must stay at 0x200). -/
theorem c7_witness :
    ∃ st', (loadedState [0xF5, 0x0A]).tick 1 ks0 = .ok st' ∧
      st'.timers.delay = (loadedState [0xF5, 0x0A]).timers.delay - 1 ∧
      st'.timers.sound = (loadedState [0xF5, 0x0A]).timers.sound - 1 ∧
      st'.memory = (loadedState [0xF5, 0x0A]).memory ∧
      st'.stack = (loadedState [0xF5, 0x0A]).stack ∧
      st'.display_buffer = (loadedState [0xF5, 0x0A]).display_buffer ∧
      st'.registers.address = (loadedState [0xF5, 0x0A]).registers.address ∧
      (∀ key, ks0.pressed_key = some key →
        st'.index = (loadedState [0xF5, 0x0A]).index + 2 ∧
        st'.registers.general = setF (loadedState [0xF5, 0x0A]).registers.general 5 key ∧
        ks0.last_state key = KeyState.Held ∧ ks0.state key = KeyState.Released ∧
        ∀ j, j < key →
          ¬(ks0.last_state j = KeyState.Held ∧ ks0.state j = KeyState.Released)) ∧
      (ks0.pressed_key = none →
        st'.index = (loadedState [0xF5, 0x0A]).index ∧
        st'.registers.general = (loadedState [0xF5, 0x0A]).registers.general) := by
  exact c7_fx0a (loadedState [0xF5, 0x0A]) ks0 5 0 rfl (by decide) (by decide)
    (by decide) (by decide)

/-! ## Per-instruction preservation lemmas -/

theorem exec0_master {st : Chip8} {index : Nat} {instr : Instruction}
    {fl : CtrlFlow} {st' : Chip8} (hpc : st.index ≤ 4096) (hinv : VmInv st)
    (h : Chip8.exec0 st index instr = .ok (fl, st')) : ExecOk st st' instr := by
  obtain ⟨hreg, hmem, htim, hstk⟩ := hinv
  simp only [Chip8.exec0] at h
  repeat' split at h
  all_goals first
    | exact Step.noConfusion h
    | (injection h with h2
       injection h2 with hfl hst
       subst hfl
       subst hst
       refine ⟨?_, ⟨hreg, hmem, htim, ?_⟩, fun _ => rfl, fun hnb _ => hnb⟩
       · first
         | exact (by omega : st.index ≤ 4350)
         | (rename_i address rest hseq
            have hhd := hstk address (by rw [hseq]; exact List.mem_cons_self _ _)
            exact (by omega : address ≤ 4350))
       · intro a ha
         first
         | exact hstk a ha
         | (rename_i address rest hseq
            refine hstk a ?_
            rw [hseq]
            exact List.mem_cons_of_mem _ ha))

theorem exec12_master {st : Chip8} {index : Nat} {instr : Instruction}
    {fl : CtrlFlow} {st' : Chip8} (hpc : st.index ≤ 4096) (hinv : VmInv st)
    (h : Chip8.exec12 st index instr = .ok (fl, st')) : ExecOk st st' instr := by
  obtain ⟨hreg, hmem, htim, hstk⟩ := hinv
  have Hnnn := nnn_lt instr
  simp only [Chip8.exec12] at h
  repeat' split at h
  all_goals first
    | exact Step.noConfusion h
    | (injection h with h2
       injection h2 with hfl hst
       subst hfl
       subst hst
       refine ⟨by first
         | exact (by omega : st.index ≤ 4350)
         | exact (by omega : st.index + 2 ≤ 4350)
         | exact (by omega : instr.operand_nnn ≤ 4350)
         | exact (by omega : index ≤ 4350)
         | exact (by omega : st.registers.general instr.operand_x + instr.operand_nnn ≤ 4350)
         | exact (by omega : st.registers.general 0 + instr.operand_nnn ≤ 4350), ⟨hreg, hmem, htim, ?_⟩, fun _ => rfl, fun hnb _ => hnb⟩
       intro a ha
       first
       | exact hstk a ha
       | (rcases List.mem_cons.mp ha with rfl | hmm2
          · have h65 := Nat.mod_le st.index 65536
            omega
          · exact hstk _ hmm2))

theorem execSkip_master {st : Chip8} {instr : Instruction}
    {fl : CtrlFlow} {st' : Chip8} (hpc : st.index ≤ 4096) (hinv : VmInv st)
    (h : Chip8.execSkip st instr = .ok (fl, st')) : ExecOk st st' instr := by
  obtain ⟨hreg, hmem, htim, hstk⟩ := hinv
  simp only [Chip8.execSkip] at h
  repeat' split at h
  all_goals first
    | exact Step.noConfusion h
    | (injection h with h2
       injection h2 with hfl hst
       subst hfl
       subst hst
       exact ⟨(by first
         | exact (by omega : st.index ≤ 4350)
         | exact (by omega : st.index + 2 ≤ 4350)
         | exact (by omega : instr.operand_nnn ≤ 4350)
         | exact (by omega : index ≤ 4350)
         | exact (by omega : st.registers.general instr.operand_x + instr.operand_nnn ≤ 4350)
         | exact (by omega : st.registers.general 0 + instr.operand_nnn ≤ 4350)), ⟨hreg, hmem, htim, hstk⟩, fun _ => rfl, fun hnb _ => hnb⟩)

theorem exec6_master {st : Chip8} {instr : Instruction}
    {fl : CtrlFlow} {st' : Chip8} (hpc : st.index ≤ 4096) (hinv : VmInv st)
    (h : Chip8.exec6 st instr = .ok (fl, st')) : ExecOk st st' instr := by
  obtain ⟨hreg, hmem, htim, hstk⟩ := hinv
  have Hnn := nn_lt instr
  simp only [Chip8.exec6] at h
  injection h with h2
  injection h2 with hfl hst
  subst hfl
  subst hst
  exact ⟨(by first
         | exact (by omega : st.index ≤ 4350)
         | exact (by omega : st.index + 2 ≤ 4350)
         | exact (by omega : instr.operand_nnn ≤ 4350)
         | exact (by omega : index ≤ 4350)
         | exact (by omega : st.registers.general instr.operand_x + instr.operand_nnn ≤ 4350)
         | exact (by omega : st.registers.general 0 + instr.operand_nnn ≤ 4350)), ⟨setF_lt _ _ _ hreg (by omega), hmem, htim, hstk⟩,
    fun _ => rfl, fun hnb _ => hnb⟩

theorem exec7_master {st : Chip8} {instr : Instruction}
    {fl : CtrlFlow} {st' : Chip8} (hpc : st.index ≤ 4096) (hinv : VmInv st)
    (h : Chip8.exec7 st instr = .ok (fl, st')) : ExecOk st st' instr := by
  obtain ⟨hreg, hmem, htim, hstk⟩ := hinv
  simp only [Chip8.exec7] at h
  injection h with h2
  injection h2 with hfl hst
  subst hfl
  subst hst
  exact ⟨(by first
         | exact (by omega : st.index ≤ 4350)
         | exact (by omega : st.index + 2 ≤ 4350)
         | exact (by omega : instr.operand_nnn ≤ 4350)
         | exact (by omega : index ≤ 4350)
         | exact (by omega : st.registers.general instr.operand_x + instr.operand_nnn ≤ 4350)
         | exact (by omega : st.registers.general 0 + instr.operand_nnn ≤ 4350)), ⟨setF_lt _ _ _ hreg (wadd8_lt _ _), hmem, htim, hstk⟩,
    fun _ => rfl, fun hnb _ => hnb⟩

theorem exec8_master {st : Chip8} {index : Nat} {instr : Instruction}
    {fl : CtrlFlow} {st' : Chip8} (hpc : st.index ≤ 4096) (hinv : VmInv st)
    (h : Chip8.exec8 st index instr = .ok (fl, st')) : ExecOk st st' instr := by
  obtain ⟨hreg, hmem, htim, hstk⟩ := hinv
  simp only [Chip8.exec8] at h
  repeat' split at h
  all_goals first
    | exact Step.noConfusion h
    | (injection h with h2
       injection h2 with hfl hst
       subst hfl
       subst hst
       refine ⟨by first
         | exact (by omega : st.index ≤ 4350)
         | exact (by omega : st.index + 2 ≤ 4350)
         | exact (by omega : instr.operand_nnn ≤ 4350)
         | exact (by omega : index ≤ 4350)
         | exact (by omega : st.registers.general instr.operand_x + instr.operand_nnn ≤ 4350)
         | exact (by omega : st.registers.general 0 + instr.operand_nnn ≤ 4350), ⟨?_, hmem, htim, hstk⟩, fun _ => rfl, fun hnb _ => hnb⟩
       intro i
       first
       | exact setF_lt _ _ _ hreg (hreg _) i
       | exact setF_lt _ _ _ (setF_lt _ _ _ hreg (by first
           | exact lor_lt (hreg _) (hreg _)
           | exact xor_lt (hreg _) (hreg _)
           | exact land_lt _ (hreg _)
           | exact wsub8_lt _ _
           | omega)) (by first
           | omega
           | exact ite01_lt _) i
       | exact setF_lt _ _ _ hreg (by first
           | exact lor_lt (hreg _) (hreg _)
           | exact xor_lt (hreg _) (hreg _)
           | exact land_lt _ (hreg _)) i
       | exact setF_lt _ _ _ (setF_lt _ _ _ (setF_lt _ _ _ hreg (hreg _))
           (by first
             | omega
             | exact Nat.lt_of_le_of_lt (Nat.div_le_self _ _)
                 (setF_lt _ _ _ hreg (hreg _) _)))
           (by first
             | omega
             | exact Nat.lt_of_le_of_lt (Nat.div_le_self _ _)
                 (setF_lt _ _ _ hreg (hreg _) _)) i
       | exact setF_lt _ _ _ (setF_lt _ _ _ hreg (by first
           | omega
           | exact Nat.lt_of_le_of_lt (Nat.div_le_self _ _) (hreg _)))
           (by first
             | omega
             | exact Nat.lt_of_le_of_lt (Nat.div_le_self _ _) (hreg _)) i)

theorem execA_master {st : Chip8} {instr : Instruction}
    {fl : CtrlFlow} {st' : Chip8} (hpc : st.index ≤ 4096) (hinv : VmInv st)
    (h : Chip8.execA st instr = .ok (fl, st')) : ExecOk st st' instr := by
  obtain ⟨hreg, hmem, htim, hstk⟩ := hinv
  simp only [Chip8.execA] at h
  injection h with h2
  injection h2 with hfl hst
  subst hfl
  subst hst
  exact ⟨(by first
         | exact (by omega : st.index ≤ 4350)
         | exact (by omega : st.index + 2 ≤ 4350)
         | exact (by omega : instr.operand_nnn ≤ 4350)
         | exact (by omega : index ≤ 4350)
         | exact (by omega : st.registers.general instr.operand_x + instr.operand_nnn ≤ 4350)
         | exact (by omega : st.registers.general 0 + instr.operand_nnn ≤ 4350)), ⟨hreg, hmem, htim, hstk⟩, fun _ => rfl, fun hnb _ => hnb⟩

theorem execB_master {st : Chip8} {instr : Instruction}
    {fl : CtrlFlow} {st' : Chip8} (hpc : st.index ≤ 4096) (hinv : VmInv st)
    (h : Chip8.execB st instr = .ok (fl, st')) : ExecOk st st' instr := by
  obtain ⟨hreg, hmem, htim, hstk⟩ := hinv
  have Hnnn := nnn_lt instr
  have Hregx := hreg instr.operand_x
  have Hreg0 := hreg 0
  simp only [Chip8.execB] at h
  repeat' split at h
  all_goals
    (injection h with h2
     injection h2 with hfl hst
     subst hfl
     subst hst
     exact ⟨(by first
         | exact (by omega : st.index ≤ 4350)
         | exact (by omega : st.index + 2 ≤ 4350)
         | exact (by omega : instr.operand_nnn ≤ 4350)
         | exact (by omega : index ≤ 4350)
         | exact (by omega : st.registers.general instr.operand_x + instr.operand_nnn ≤ 4350)
         | exact (by omega : st.registers.general 0 + instr.operand_nnn ≤ 4350)), ⟨hreg, hmem, htim, hstk⟩, fun _ => rfl, fun hnb _ => hnb⟩)

theorem execC_master {st : Chip8} {instr : Instruction}
    {fl : CtrlFlow} {st' : Chip8} (hpc : st.index ≤ 4096) (hinv : VmInv st)
    (h : Chip8.execC st instr = .ok (fl, st')) : ExecOk st st' instr := by
  obtain ⟨hreg, hmem, htim, hstk⟩ := hinv
  have Hnn := nn_lt instr
  simp only [Chip8.execC] at h
  injection h with h2
  injection h2 with hfl hst
  subst hfl
  subst hst
  exact ⟨(by first
         | exact (by omega : st.index ≤ 4350)
         | exact (by omega : st.index + 2 ≤ 4350)
         | exact (by omega : instr.operand_nnn ≤ 4350)
         | exact (by omega : index ≤ 4350)
         | exact (by omega : st.registers.general instr.operand_x + instr.operand_nnn ≤ 4350)
         | exact (by omega : st.registers.general 0 + instr.operand_nnn ≤ 4350)), ⟨setF_lt _ _ _ hreg (land_lt _ (by omega)), hmem, htim, hstk⟩,
    fun _ => rfl, fun hnb _ => hnb⟩

theorem execD_master {st : Chip8} {index : Nat} {instr : Instruction}
    {fl : CtrlFlow} {st' : Chip8} (hpc : st.index ≤ 4096) (hinv : VmInv st)
    (h : Chip8.execD st index instr = .ok (fl, st')) : ExecOk st st' instr := by
  obtain ⟨hreg, hmem, htim, hstk⟩ := hinv
  simp only [Chip8.execD] at h
  repeat' split at h
  all_goals first
    | exact Step.noConfusion h
    | (injection h with h2
       injection h2 with hfl hst
       subst hfl
       subst hst
       exact ⟨(by first
         | exact (by omega : st.index ≤ 4350)), ⟨setF_lt _ _ _ hreg (by first
           | exact ite01_lt _
           | omega), hmem, htim, hstk⟩,
         fun _ => rfl, fun hnb _ => hnb⟩)

theorem execE_master {st : Chip8} {index : Nat} {instr : Instruction}
    {ks : KeypadState} {fl : CtrlFlow} {st' : Chip8}
    (hpc : st.index ≤ 4096) (hinv : VmInv st)
    (h : Chip8.execE st index instr ks = .ok (fl, st')) : ExecOk st st' instr := by
  obtain ⟨hreg, hmem, htim, hstk⟩ := hinv
  simp only [Chip8.execE] at h
  repeat' split at h
  all_goals first
    | exact Step.noConfusion h
    | (injection h with h2
       injection h2 with hfl hst
       subst hfl
       subst hst
       exact ⟨(by first
         | exact (by omega : st.index ≤ 4350)
         | exact (by omega : st.index + 2 ≤ 4350)
         | exact (by omega : instr.operand_nnn ≤ 4350)
         | exact (by omega : index ≤ 4350)
         | exact (by omega : st.registers.general instr.operand_x + instr.operand_nnn ≤ 4350)
         | exact (by omega : st.registers.general 0 + instr.operand_nnn ≤ 4350)), ⟨hreg, hmem, htim, hstk⟩, fun _ => rfl, fun hnb _ => hnb⟩)

theorem execF07_master {st : Chip8} {instr : Instruction}
    {fl : CtrlFlow} {st' : Chip8} (hpc : st.index ≤ 4096) (hinv : VmInv st)
    (h : Chip8.execF07 st instr = .ok (fl, st')) : ExecOk st st' instr := by
  obtain ⟨hreg, hmem, htim, hstk⟩ := hinv
  simp only [Chip8.execF07] at h
  injection h with h2
  injection h2 with hfl hst
  subst hfl
  subst hst
  exact ⟨(by omega : st.index ≤ 4350), ⟨setF_lt _ _ _ hreg htim.1, hmem, htim, hstk⟩,
    fun _ => rfl, fun hnb _ => hnb⟩

theorem execF0A_master {st : Chip8} {index : Nat} {instr : Instruction}
    {ks : KeypadState} {fl : CtrlFlow} {st' : Chip8}
    (hidx : index ≤ 4094) (hpc : st.index ≤ 4096) (hinv : VmInv st)
    (h : Chip8.execF0A st index instr ks = .ok (fl, st')) : ExecOk st st' instr := by
  obtain ⟨hreg, hmem, htim, hstk⟩ := hinv
  simp only [Chip8.execF0A] at h
  split at h
  all_goals
    (injection h with h2
     injection h2 with hfl hst
     subst hfl
     subst hst)
  · refine ⟨(by omega : st.index ≤ 4350), ⟨?_, hmem, htim, hstk⟩,
      fun _ => rfl, fun hnb _ => hnb⟩
    exact setF_lt _ _ _ hreg
      (Nat.lt_trans (pressed_key_some (by assumption)) (by omega))
  · exact ⟨(by omega : index ≤ 4350), ⟨hreg, hmem, htim, hstk⟩,
      fun _ => rfl, fun hnb _ => hnb⟩

theorem execF15_master {st : Chip8} {instr : Instruction}
    {fl : CtrlFlow} {st' : Chip8} (hpc : st.index ≤ 4096)
    (hop : instr.operator_code = 15) (hnn : instr.operand_nn = 0x15)
    (hinv : VmInv st)
    (h : Chip8.execF15 st instr = .ok (fl, st')) : ExecOk st st' instr := by
  obtain ⟨hreg, hmem, htim, hstk⟩ := hinv
  simp only [Chip8.execF15] at h
  injection h with h2
  injection h2 with hfl hst
  subst hfl
  subst hst
  exact ⟨(by omega : st.index ≤ 4350), ⟨hreg, hmem, ⟨hreg _, htim.2⟩, hstk⟩,
    fun hti => absurd ⟨hop, Or.inl hnn⟩ hti, fun hnb _ => hnb⟩

theorem execF18_master {st : Chip8} {instr : Instruction}
    {fl : CtrlFlow} {st' : Chip8} (hpc : st.index ≤ 4096)
    (hop : instr.operator_code = 15) (hnn : instr.operand_nn = 0x18)
    (hinv : VmInv st)
    (h : Chip8.execF18 st instr = .ok (fl, st')) : ExecOk st st' instr := by
  obtain ⟨hreg, hmem, htim, hstk⟩ := hinv
  simp only [Chip8.execF18] at h
  injection h with h2
  injection h2 with hfl hst
  subst hfl
  subst hst
  exact ⟨(by omega : st.index ≤ 4350), ⟨hreg, hmem, ⟨htim.1, hreg _⟩, hstk⟩,
    fun hti => absurd ⟨hop, Or.inr hnn⟩ hti, fun hnb _ => hnb⟩

theorem execF1E_master {st : Chip8} {instr : Instruction}
    {fl : CtrlFlow} {st' : Chip8} (hpc : st.index ≤ 4096) (hinv : VmInv st)
    (h : Chip8.execF1E st instr = .ok (fl, st')) : ExecOk st st' instr := by
  obtain ⟨hreg, hmem, htim, hstk⟩ := hinv
  simp only [Chip8.execF1E] at h
  injection h with h2
  injection h2 with hfl hst
  subst hfl
  subst hst
  exact ⟨(by omega : st.index ≤ 4350), ⟨hreg, hmem, htim, hstk⟩,
    fun _ => rfl, fun hnb _ => hnb⟩

theorem execF29_master {st : Chip8} {index : Nat} {instr : Instruction}
    {fl : CtrlFlow} {st' : Chip8} (hpc : st.index ≤ 4096) (hinv : VmInv st)
    (h : Chip8.execF29 st index instr = .ok (fl, st')) : ExecOk st st' instr := by
  obtain ⟨hreg, hmem, htim, hstk⟩ := hinv
  simp only [Chip8.execF29] at h
  split at h
  · exact Step.noConfusion h
  · injection h with h2
    injection h2 with hfl hst
    subst hfl
    subst hst
    exact ⟨(by omega : st.index ≤ 4350), ⟨hreg, hmem, htim, hstk⟩,
      fun _ => rfl, fun hnb _ => hnb⟩

theorem execF33_master {st : Chip8} {index : Nat} {instr : Instruction}
    {fl : CtrlFlow} {st' : Chip8} (hpc : st.index ≤ 4096) (hinv : VmInv st)
    (h : Chip8.execF33 st index instr = .ok (fl, st')) : ExecOk st st' instr := by
  obtain ⟨hreg, hmem, htim, hstk⟩ := hinv
  have Hgx := hreg instr.operand_x
  simp only [Chip8.execF33] at h
  split at h
  · exact Step.noConfusion h
  · injection h with h2
    injection h2 with hfl hst
    subst hfl
    subst hst
    refine ⟨(by omega : st.index ≤ 4350), ⟨hreg, ?_, htim, hstk⟩,
      fun _ => rfl, fun hnb _ => ?_⟩
    · exact setF_lt _ _ _ (setF_lt _ _ _ (setF_lt _ _ _ hmem (by omega))
        (by omega)) (by omega)
    · exact noBad_setF_digit (noBad_setF_digit (noBad_setF_digit hnb _ _
        (by omega)) _ _ (by omega)) _ _ (by omega)

theorem execF55_master {st : Chip8} {index : Nat} {instr : Instruction}
    {fl : CtrlFlow} {st' : Chip8} (hpc : st.index ≤ 4096)
    (hop : instr.operator_code = 15) (hnn : instr.operand_nn = 0x55)
    (hinv : VmInv st)
    (h : Chip8.execF55 st index instr = .ok (fl, st')) : ExecOk st st' instr := by
  obtain ⟨hreg, hmem, htim, hstk⟩ := hinv
  simp only [Chip8.execF55] at h
  split at h
  · exact Step.noConfusion h
  · injection h with h2
    injection h2 with hfl hst
    subst hfl
    subst hst
    exact ⟨(by omega : st.index ≤ 4350),
      ⟨hreg, foldl_store_lt _ _ _ _ hmem hreg, htim, hstk⟩,
      fun _ => rfl, fun _ hsw => absurd ⟨hop, hnn⟩ hsw⟩

theorem execF65_master {st : Chip8} {instr : Instruction}
    {fl : CtrlFlow} {st' : Chip8} (hpc : st.index ≤ 4096) (hinv : VmInv st)
    (h : Chip8.execF65 st instr = .ok (fl, st')) : ExecOk st st' instr := by
  obtain ⟨hreg, hmem, htim, hstk⟩ := hinv
  simp only [Chip8.execF65] at h
  split at h
  · exact Step.noConfusion h
  · injection h with h2
    injection h2 with hfl hst
    subst hfl
    subst hst
    exact ⟨(by omega : st.index ≤ 4350),
      ⟨foldl_load_lt _ _ _ _ hreg hmem, hmem, htim, hstk⟩,
      fun _ => rfl, fun hnb _ => hnb⟩

theorem execF_master {st : Chip8} {index : Nat} {instr : Instruction}
    {ks : KeypadState} {fl : CtrlFlow} {st' : Chip8}
    (hidx : index ≤ 4094) (hpc : st.index ≤ 4096)
    (hop : instr.operator_code = 15) (hinv : VmInv st)
    (h : Chip8.execF st index instr ks = .ok (fl, st')) : ExecOk st st' instr := by
  simp only [Chip8.execF] at h
  by_cases h07 : instr.operand_nn = 0x07
  · rw [if_pos h07] at h
    exact execF07_master hpc hinv h
  rw [if_neg h07] at h
  by_cases h0A : instr.operand_nn = 0x0A
  · rw [if_pos h0A] at h
    exact execF0A_master hidx hpc hinv h
  rw [if_neg h0A] at h
  by_cases h15 : instr.operand_nn = 0x15
  · rw [if_pos h15] at h
    exact execF15_master hpc hop h15 hinv h
  rw [if_neg h15] at h
  by_cases h18 : instr.operand_nn = 0x18
  · rw [if_pos h18] at h
    exact execF18_master hpc hop h18 hinv h
  rw [if_neg h18] at h
  by_cases h1E : instr.operand_nn = 0x1E
  · rw [if_pos h1E] at h
    exact execF1E_master hpc hinv h
  rw [if_neg h1E] at h
  by_cases h29 : instr.operand_nn = 0x29
  · rw [if_pos h29] at h
    exact execF29_master hpc hinv h
  rw [if_neg h29] at h
  by_cases h33 : instr.operand_nn = 0x33
  · rw [if_pos h33] at h
    exact execF33_master hpc hinv h
  rw [if_neg h33] at h
  by_cases h55 : instr.operand_nn = 0x55
  · rw [if_pos h55] at h
    exact execF55_master hpc hop h55 hinv h
  rw [if_neg h55] at h
  by_cases h65 : instr.operand_nn = 0x65
  · rw [if_pos h65] at h
    exact execF65_master hpc hinv h
  rw [if_neg h65] at h
  exact Step.noConfusion h

/-- The combined preservation lemma for one `execute` step: from a state
satisfying the byte/stack invariants, with the instruction fetched from an
address at most 4094 and the PC already advanced to at most 4096, a
successful `execute` keeps the invariants, bounds the new PC by 4350,
leaves the timers alone unless the opcode is FX15/FX18, and preserves
`NoBad` memories unless the opcode is FX55. -/
theorem exec_master {st : Chip8} {index : Nat} {instr : Instruction}
    {ks : KeypadState} {fl : CtrlFlow} {st' : Chip8}
    (hidx : index ≤ 4094) (hpc : st.index ≤ 4096) (hinv : VmInv st)
    (h : st.execute index instr ks = .ok (fl, st')) : ExecOk st st' instr := by
  simp only [Chip8.execute] at h
  by_cases h0 : instr.operator_code = 0
  · rw [if_pos h0] at h
    exact exec0_master hpc hinv h
  rw [if_neg h0] at h
  by_cases h12 : instr.operator_code = 1 ∨ instr.operator_code = 2
  · rw [if_pos h12] at h
    exact exec12_master hpc hinv h
  rw [if_neg h12] at h
  by_cases hsk : instr.operator_code = 3 ∨ instr.operator_code = 4 ∨
      instr.operator_code = 5 ∨ instr.operator_code = 9
  · rw [if_pos hsk] at h
    exact execSkip_master hpc hinv h
  rw [if_neg hsk] at h
  by_cases h6 : instr.operator_code = 6
  · rw [if_pos h6] at h
    exact exec6_master hpc hinv h
  rw [if_neg h6] at h
  by_cases h7 : instr.operator_code = 7
  · rw [if_pos h7] at h
    exact exec7_master hpc hinv h
  rw [if_neg h7] at h
  by_cases h8 : instr.operator_code = 8
  · rw [if_pos h8] at h
    exact exec8_master hpc hinv h
  rw [if_neg h8] at h
  by_cases hA : instr.operator_code = 10
  · rw [if_pos hA] at h
    exact execA_master hpc hinv h
  rw [if_neg hA] at h
  by_cases hB : instr.operator_code = 11
  · rw [if_pos hB] at h
    exact execB_master hpc hinv h
  rw [if_neg hB] at h
  by_cases hC : instr.operator_code = 12
  · rw [if_pos hC] at h
    exact execC_master hpc hinv h
  rw [if_neg hC] at h
  by_cases hD : instr.operator_code = 13
  · rw [if_pos hD] at h
    exact execD_master hpc hinv h
  rw [if_neg hD] at h
  by_cases hE : instr.operator_code = 14
  · rw [if_pos hE] at h
    exact execE_master hpc hinv h
  rw [if_neg hE] at h
  by_cases hF : instr.operator_code = 15
  · rw [if_pos hF] at h
    exact execF_master hidx hpc hF hinv h
  rw [if_neg hF] at h
  exact Step.noConfusion h

/-! ## Tick-level preservation -/

theorem tickLoop_master {ks : KeypadState} :
    ∀ (n : Nat) {st st' : Chip8}, VmInv st → st.index ≤ 4350 →
    Chip8.tickLoop ks n st = .ok st' →
    VmInv st' ∧ st'.index ≤ 4350 ∧
    (NoBad st.memory → st'.timers = st.timers ∧ NoBad st'.memory) := by
  intro n
  induction n with
  | zero =>
    intro st st' hinv hidx h
    injection h with h2
    subst h2
    exact ⟨hinv, hidx, fun hnb => ⟨rfl, hnb⟩⟩
  | succ m ih =>
    intro st st' hinv hidx h
    simp only [Chip8.tickLoop] at h
    split at h
    · exact Step.noConfusion h
    rename_i hb
    split at h
    · exact Step.noConfusion h
    · exact Step.noConfusion h
    · rename_i st2 heq
      injection h with h2
      subst h2
      obtain ⟨hidx2, hinv2, htick2, hnb2⟩ :=
        exec_master (by omega)
          (by show st.index + 2 ≤ 4096
              omega)
          (by exact hinv) heq
      refine ⟨hinv2, hidx2, fun hnb => ?_⟩
      have hnotbad := hnb st.index
      exact ⟨htick2 fun ht => hnotbad (Or.inl ht),
        hnb2 hnb fun hs => hnotbad (Or.inr hs)⟩
    · rename_i st2 heq
      obtain ⟨hidx2, hinv2, htick2, hnb2⟩ :=
        exec_master (by omega)
          (by show st.index + 2 ≤ 4096
              omega)
          (by exact hinv) heq
      obtain ⟨ih1, ih2, ih3⟩ := ih hinv2 hidx2 h
      refine ⟨ih1, ih2, fun hnb => ?_⟩
      have hnotbad := hnb st.index
      have ht2 : st2.timers = st.timers := htick2 fun ht => hnotbad (Or.inl ht)
      have hn2 : NoBad st2.memory := hnb2 hnb fun hs => hnotbad (Or.inr hs)
      obtain ⟨hta, htb⟩ := ih3 hn2
      exact ⟨by rw [hta, ht2], htb⟩

/-! ## C3: amended PC bound -/

/-- C3, amended: for a backend whose registers, memory bytes, timers and
stack entries hold the values the Rust types guarantee (`VmInv`) and whose
PC is at most 4350, every successful `tick` leaves the PC strictly below
4351 and preserves those invariants.  The original claim's evenness and
`< 4096` bound fail (see the counterexample): `1NNN`/`2NNN`/`00EE` can set
any 12-bit value, odd ones included, and `BNNN` can reach up to
`255 + 4095 = 4350`. -/
theorem c3_pc_bound (st : Chip8) (ks : KeypadState) (n : Nat) (st' : Chip8)
    (hinv : VmInv st) (hidx : st.index ≤ 4350)
    (h : st.tick n ks = .ok st') : st'.index < 4351 ∧ VmInv st' := by
  unfold Chip8.tick at h
  split at h
  · exact Step.noConfusion h
  · obtain ⟨hr, hm, ⟨ht1, ht2⟩, hs⟩ := hinv
    have hinv1 : VmInv
        (Chip8.mk st.display_buffer st.index st.loaded st.memory st.options
          st.registers st.stack ⟨st.timers.delay - 1, st.timers.sound - 1⟩
          st.rng st.rngIdx) :=
      ⟨hr, hm, ⟨(by omega : st.timers.delay - 1 < 256),
        (by omega : st.timers.sound - 1 < 256)⟩, hs⟩
    obtain ⟨h1, h2, _⟩ := tickLoop_master n hinv1
      (by exact (by omega : st.index ≤ 4350)) h
    exact ⟨by omega, h1⟩

theorem getD_lt {l : List Nat} (hl : ∀ b ∈ l, b < 256) (i : Nat) :
    l.getD i 0 < 256 := by
  rcases Nat.lt_or_ge i l.length with hlt | hge
  · rw [List.getD_eq_getElem _ _ hlt]
    exact hl _ (List.getElem_mem hlt)
  · rw [List.getD_eq_default _ _ hge]
    omega

theorem loadedState_inv (prog : List Nat) (hp : ∀ b ∈ prog, b < 256) :
    VmInv (loadedState prog) := by
  refine ⟨fun i => by show (0 : Nat) < 256; omega, fun i => ?_,
    ⟨by show (0 : Nat) < 256; omega, by show (0 : Nat) < 256; omega⟩, ?_⟩
  · show mkMem prog i < 256
    unfold mkMem
    split
    · exact getD_lt hp _
    · omega
  · intro a ha
    simp [loadedState, Chip8.new] at ha

/-- C3, witness: the amended bound applied to the concrete backend `ce3`
(which reaches the out-of-range odd PCs of the counterexample's family). -/
theorem c3_pc_bound_witness :
    ∃ st', ce3.tick 2 ks0 = .ok st' ∧ st'.index < 4351 ∧ VmInv st' := by
  obtain ⟨h1, h2⟩ := c3_pc_bound ce3 ks0 2 _
    (loadedState_inv [0x60, 0xFE, 0xBF, 0xFF] (by decide)) (by decide) rfl
  exact ⟨_, rfl, h1, h2⟩

/-! ## C6: amended timer discipline -/

/-- C6, amended: both timers are decremented exactly once, saturating at 0,
at the start of a tick and before any opcode executes; consequently, for a
loaded backend (with the `u8`/stack invariants) whose memory contains no
byte pair decoding to FX15/FX18 — and none decoding to FX55, which could
write such a pair — every successful `tick(n)` ends with both timers equal
to `max(prev − 1, 0)`, regardless of `n`.  Without that restriction the
conclusion fails: an executed FX15/FX18 overwrites the freshly decremented
timer (see the counterexample). -/
theorem c6_timer_discipline (st : Chip8) (ks : KeypadState) (n : Nat)
    (st' : Chip8) (hinv : VmInv st) (hidx : st.index ≤ 4350)
    (hnb : NoBad st.memory) (h : st.tick n ks = .ok st') :
    st'.timers.delay = st.timers.delay - 1 ∧
    st'.timers.sound = st.timers.sound - 1 := by
  unfold Chip8.tick at h
  split at h
  · exact Step.noConfusion h
  · obtain ⟨hr, hm, ⟨ht1, ht2⟩, hs⟩ := hinv
    have hinv1 : VmInv
        (Chip8.mk st.display_buffer st.index st.loaded st.memory st.options
          st.registers st.stack ⟨st.timers.delay - 1, st.timers.sound - 1⟩
          st.rng st.rngIdx) :=
      ⟨hr, hm, ⟨(by omega : st.timers.delay - 1 < 256),
        (by omega : st.timers.sound - 1 < 256)⟩, hs⟩
    obtain ⟨_, _, h3⟩ := tickLoop_master n hinv1
      (by exact (by omega : st.index ≤ 4350)) h
    obtain ⟨hta, _⟩ := h3 hnb
    rw [hta]
    exact ⟨rfl, rfl⟩

/-- C6, witness: the timer law applied to the loaded program
`60 FE BF FF`, whose memory holds no FX15/FX18/FX55 pair. -/
theorem c6_timer_witness :
    ∃ st', ce3.tick 2 ks0 = .ok st' ∧
      st'.timers.delay = ce3.timers.delay - 1 ∧
      st'.timers.sound = ce3.timers.sound - 1 := by
  have hnb : NoBad ce3.memory := by
    intro a
    show ¬(timerWrite (Instruction.new (mkMem [0x60, 0xFE, 0xBF, 0xFF] a)
        (mkMem [0x60, 0xFE, 0xBF, 0xFF] (a + 1))) ∨ _)
    have hbyte : ∀ i, mkMem [0x60, 0xFE, 0xBF, 0xFF] i % 256 ≠ 0x15 ∧
        mkMem [0x60, 0xFE, 0xBF, 0xFF] i % 256 ≠ 0x18 ∧
        mkMem [0x60, 0xFE, 0xBF, 0xFF] i % 256 ≠ 0x55 := by
      intro i
      unfold mkMem
      split
      · rename_i hr
        have h4 : i - 512 < 4 := by
          simp only [List.length_cons, List.length_nil] at hr
          omega
        interval_cases h : (i - 512) <;> simp_all
      · simp
    intro hcontra
    rcases hcontra with ⟨_, hnn⟩ | ⟨_, hnn⟩
    · simp only [Instruction.nn_new] at hnn
      rcases hnn with hnn | hnn
      · exact (hbyte (a + 1)).1 hnn
      · exact (hbyte (a + 1)).2.1 hnn
    · simp only [Instruction.nn_new] at hnn
      exact (hbyte (a + 1)).2.2 hnn
  obtain ⟨h1, h2⟩ := c6_timer_discipline ce3 ks0 2 _
    (loadedState_inv [0x60, 0xFE, 0xBF, 0xFF] (by decide)) (by decide) hnb rfl
  exact ⟨_, rfl, h1, h2⟩

/-! ## C9: totality of the draw routines -/

theorem toggle_pos {W H : Nat} (g : Nat → Nat → Bool) {i j : Nat}
    (hi : i < H) (hj : j < W) :
    toggle W H g i j =
      some (fun a b => if a = i ∧ b = j then !(g a b) else g a b, !(g i j)) := by
  unfold toggle
  rw [if_pos ⟨hi, hj⟩]
  simp

theorem dvd_mod_two {a W : Nat} (ha : 2 ∣ a) (hW : 2 ∣ W) : 2 ∣ a % W :=
  (Nat.dvd_mod_iff hW).mpr ha

theorem drawBits_isSome (W H : Nat) (clip halfRes : Bool) (scaling c0 cy byte : Nat) :
    ∀ (k x : Nat) (g : Nat → Nat → Bool) (c : Bool),
    cy < H → 0 < W →
    (halfRes = true → 2 ∣ cy ∧ 2 ∣ c0 ∧ 2 ∣ W ∧ 2 ∣ H ∧ scaling = 2) →
    ∃ r, drawBits W H clip halfRes scaling c0 cy byte x k g c = some r := by
  intro k
  induction k with
  | zero => exact fun x g c _ _ _ => ⟨(g, c), rfl⟩
  | succ m ih =>
    intro x g c hcy hW hhalf
    simp only [drawBits]
    split
    · exact ⟨(g, c), rfl⟩
    split
    · rename_i hbit
      cases hhr : halfRes with
      | false =>
        subst hhr
        rw [if_neg (by simp)]
        obtain ⟨⟨g', v⟩, hp⟩ : ∃ p, toggle W H g cy ((c0 + x * scaling) % W) = some p :=
          ⟨_, toggle_pos g hcy (Nat.mod_lt _ hW)⟩
        simp only [hp]
        exact ih (x + 1) g' (c || !v) hcy hW hhalf
      | true =>
        subst hhr
        obtain ⟨hcy2, hc02, hW2, hH2, hsc⟩ := hhalf rfl
        have hcxm2 : 2 ∣ (c0 + x * scaling) % W := by
          refine dvd_mod_two ?_ hW2
          rw [hsc]
          omega
        have hcxmW : (c0 + x * scaling) % W < W := Nat.mod_lt _ hW
        have hcxm1 : (c0 + x * scaling) % W + 1 < W := by omega
        have hcy1 : cy + 1 < H := by omega
        rw [if_pos rfl]
        obtain ⟨⟨g1, v1⟩, hp1⟩ :
            ∃ p, toggle W H g cy ((c0 + x * scaling) % W) = some p :=
          ⟨_, toggle_pos _ hcy hcxmW⟩
        simp only [hp1]
        obtain ⟨⟨g2, v2⟩, hp2⟩ :
            ∃ p, toggle W H g1 cy ((c0 + x * scaling) % W + 1) = some p :=
          ⟨_, toggle_pos _ hcy hcxm1⟩
        simp only [hp2]
        obtain ⟨⟨g3, v3⟩, hp3⟩ :
            ∃ p, toggle W H g2 (cy + 1) ((c0 + x * scaling) % W) = some p :=
          ⟨_, toggle_pos _ hcy1 hcxmW⟩
        simp only [hp3]
        obtain ⟨⟨g4, v4⟩, hp4⟩ :
            ∃ p, toggle W H g3 (cy + 1) ((c0 + x * scaling) % W + 1) = some p :=
          ⟨_, toggle_pos _ hcy1 hcxm1⟩
        simp only [hp4]
        exact ih (x + 1) g4 (c || !v1 || !v2 || !v3 || !v4) hcy hW hhalf
    · exact ih (x + 1) _ _ hcy hW hhalf

theorem drawRows_isSome (W H : Nat) (clip halfRes : Bool) (scaling c0 c1 len : Nat) :
    ∀ (rows : List Nat) (y : Nat) (g : Nat → Nat → Bool) (cnt : Nat),
    0 < W → 0 < H →
    (halfRes = true → 2 ∣ c1 ∧ 2 ∣ c0 ∧ 2 ∣ W ∧ 2 ∣ H ∧ scaling = 2) →
    ∃ r, drawRows W H clip halfRes scaling c0 c1 len y rows g cnt = some r := by
  intro rows
  induction rows with
  | nil => exact fun y g cnt _ _ _ => ⟨(g, cnt), rfl⟩
  | cons byte rest ih =>
    intro y g cnt hW hH hhalf
    simp only [drawRows]
    split
    · exact ⟨(g, cnt + (len - y)), rfl⟩
    have hcym : (c1 + y * scaling) % H < H := Nat.mod_lt _ hH
    have hhalf2 : halfRes = true →
        2 ∣ (c1 + y * scaling) % H ∧ 2 ∣ c0 ∧ 2 ∣ W ∧ 2 ∣ H ∧ scaling = 2 := by
      intro hhr
      obtain ⟨hc1, hc0, hW2, hH2, hsc⟩ := hhalf hhr
      exact ⟨dvd_mod_two (by rw [hsc]; omega) hH2, hc0, hW2, hH2, hsc⟩
    obtain ⟨rb, hrb⟩ := drawBits_isSome W H clip halfRes scaling c0
      ((c1 + y * scaling) % H) byte 8 0 g false hcym hW hhalf2
    rw [hrb]
    exact ih (y + 1) rb.1 _ hW hH hhalf

theorem draw16Bits_isSome (W H : Nat) (clip : Bool) (c0 cy row : Nat) :
    ∀ (k x : Nat) (g : Nat → Nat → Bool) (c : Bool), cy < H → 0 < W →
    ∃ r, draw16Bits W H clip c0 cy row x k g c = some r := by
  intro k
  induction k with
  | zero => exact fun x g c _ _ => ⟨(g, c), rfl⟩
  | succ m ih =>
    intro x g c hcy hW
    simp only [draw16Bits]
    split
    · exact ⟨(g, c), rfl⟩
    split
    · obtain ⟨⟨g', v⟩, hp⟩ : ∃ p, toggle W H g cy ((c0 + x) % W) = some p :=
        ⟨_, toggle_pos g hcy (Nat.mod_lt _ hW)⟩
      simp only [hp]
      exact ih (x + 1) g' (c || !v) hcy hW
    · exact ih (x + 1) g c hcy hW

theorem draw16Rows_isSome (W H : Nat) (clip : Bool) (c0 c1 len : Nat) :
    ∀ (rows : List Nat) (y : Nat) (g : Nat → Nat → Bool) (cnt : Nat),
    0 < W → 0 < H →
    ∃ r, draw16Rows W H clip c0 c1 len y rows g cnt = some r := by
  intro rows
  induction rows with
  | nil => exact fun y g cnt _ _ => ⟨(g, cnt), rfl⟩
  | cons row rest ih =>
    intro y g cnt hW hH
    simp only [draw16Rows]
    split
    · exact ⟨(g, cnt + (len - y)), rfl⟩
    obtain ⟨rb, hrb⟩ := draw16Bits_isSome W H clip c0 ((c1 + y) % H) row 16 0 g false
      (Nat.mod_lt _ hH) hW
    rw [hrb]
    exact ih (y + 1) rb.1 _ hW hH

theorem draw_16x16_isSome {W H : Nat} (d : DisplayBuffer W H)
    (coords : Nat × Nat) (sprite : List Nat) (hW : 0 < W) (hH : 0 < H) :
    ∃ r, d.draw_16x16 coords sprite = some r := by
  simp only [DisplayBuffer.draw_16x16]
  obtain ⟨rb, hrb⟩ := draw16Rows_isSome W H d.options.clip_sprites
    (coords.1 % W) (coords.2 % H) sprite.length sprite 0 d.buffer 0 hW hH
  rw [hrb]
  exact ⟨_, rfl⟩

/-- C9: `DisplayBuffer::draw` and `draw_16x16` are total — no index into the
pixel grid is ever out of bounds, for any display state, coordinates and
sprite, on any grid with positive even dimensions (both instantiated grids,
64×32 and 128×64, qualify; evenness is what makes the 2×2 lores block writes
land inside the grid).  Formally, the panic-instrumented embeddings always
return `some`. -/
theorem c9_draw_total :
    (∀ (W H : Nat) (d : DisplayBuffer W H) (coords : Nat × Nat)
      (sprite : List Nat), 0 < W → 0 < H → 2 ∣ W → 2 ∣ H →
      ∃ r, d.draw coords sprite = some r) ∧
    (∀ (W H : Nat) (d : DisplayBuffer W H) (coords : Nat × Nat)
      (sprite : List Nat), 0 < W → 0 < H →
      ∃ r, d.draw_16x16 coords sprite = some r) := by
  refine ⟨?_, fun W H d coords sprite hW hH => draw_16x16_isSome d coords sprite hW hH⟩
  intro W H d coords sprite hW hH hW2 hH2
  simp only [DisplayBuffer.draw]
  split
  · exact draw_16x16_isSome d coords _ hW hH
  · have hhalf : d.half_resolution = true →
        2 ∣ coords.2 * (if d.half_resolution then 2 else 1) % H ∧
        2 ∣ coords.1 * (if d.half_resolution then 2 else 1) % W ∧
        2 ∣ W ∧ 2 ∣ H ∧ (if d.half_resolution then 2 else 1) = 2 := by
      intro hhr
      rw [hhr]
      simp only [if_true]
      exact ⟨dvd_mod_two (dvd_mul_left 2 _) hH2, dvd_mod_two (dvd_mul_left 2 _) hW2,
        hW2, hH2, trivial⟩
    obtain ⟨rb, hrb⟩ := drawRows_isSome W H d.options.clip_sprites d.half_resolution
      (if d.half_resolution then 2 else 1)
      (coords.1 * (if d.half_resolution then 2 else 1) % W)
      (coords.2 * (if d.half_resolution then 2 else 1) % H)
      sprite.length sprite 0 d.buffer 0 hW hH hhalf
    rw [hrb]
    exact ⟨_, rfl⟩

/-- C9, witness: totality applied to the 64×32 display `dPix` drawing the
one-byte sprite `FF` at (62, 31), and to a 16×16 sprite on the same grid. -/
theorem c9_draw_total_witness :
    (∃ r, dPix.draw (62, 31) [0xFF] = some r) ∧
    (∃ r, dPix.draw_16x16 (120, 63) (List.replicate 16 0xFFFF) = some r) :=
  ⟨c9_draw_total.1 64 32 dPix (62, 31) [0xFF] (by decide) (by decide)
      (by decide) (by decide),
   c9_draw_total.2 64 32 dPix (120, 63) (List.replicate 16 0xFFFF)
      (by decide) (by decide)⟩

/-! ## C8: the XOR structure of `draw`

The cells a draw toggles depend only on the sprite, the coordinates and the
display options — never on the pixel contents — so two runs of the same draw
from different grids toggle the same cells.  This "difference invariance"
yields both that a second identical draw exists and that it restores every
pixel. -/

theorem toggle_bounds {W H : Nat} {g : Nat → Nat → Bool} {i j : Nat}
    {p : (Nat → Nat → Bool) × Bool} (h : toggle W H g i j = some p) :
    i < H ∧ j < W := by
  unfold toggle at h
  split at h
  · assumption
  · exact Option.noConfusion h

theorem toggle_diff {W H : Nat} {g1 g2 : Nat → Nat → Bool} {i j : Nat}
    {p1 p2 : (Nat → Nat → Bool) × Bool}
    (e1 : toggle W H g1 i j = some p1) (e2 : toggle W H g2 i j = some p2) :
    ∀ a b, Bool.xor (p1.1 a b) (p2.1 a b) = Bool.xor (g1 a b) (g2 a b) := by
  unfold toggle at e1 e2
  split at e1
  · rename_i hc
    rw [if_pos hc] at e2
    injection e1 with e1
    injection e2 with e2
    subst e1
    subst e2
    intro a b
    by_cases hab : a = i ∧ b = j
    · simp only [hab, and_self, if_pos]
      cases g1 i j <;> cases g2 i j <;> rfl
    · simp only [if_neg hab]
  · exact Option.noConfusion e1

theorem drawBits_diff (W H : Nat) (clip halfRes : Bool) (scaling c0 cy byte : Nat) :
    ∀ (k x : Nat) (g1 g2 : Nat → Nat → Bool) (c1 c2 : Bool)
      (r1 : (Nat → Nat → Bool) × Bool),
    drawBits W H clip halfRes scaling c0 cy byte x k g1 c1 = some r1 →
    ∃ r2, drawBits W H clip halfRes scaling c0 cy byte x k g2 c2 = some r2 ∧
      ∀ a b, Bool.xor (r1.1 a b) (r2.1 a b) = Bool.xor (g1 a b) (g2 a b) := by
  intro k
  induction k with
  | zero =>
    intro x g1 g2 c1 c2 r1 h
    injection h with h
    subst h
    exact ⟨(g2, c2), rfl, fun a b => rfl⟩
  | succ m ih =>
    intro x g1 g2 c1 c2 r1 h
    simp only [drawBits] at h ⊢
    split at h
    · rename_i hcw
      rw [if_pos hcw]
      injection h with h
      subst h
      exact ⟨(g2, c2), rfl, fun a b => rfl⟩
    · rename_i hcw
      rw [if_neg hcw]
      split at h
      · rename_i hb
        rw [if_pos hb]
        split at h
        · rename_i hhr
          rw [if_pos hhr]
          cases t1 : toggle W H g1 cy ((c0 + x * scaling) % W) with
          | none => rw [t1] at h; exact Option.noConfusion h
          | some p1 =>
            obtain ⟨p1g, p1v⟩ := p1
            simp only [t1] at h
            cases u1 : toggle W H p1g cy ((c0 + x * scaling) % W + 1) with
            | none => rw [u1] at h; exact Option.noConfusion h
            | some q1 =>
              obtain ⟨q1g, q1v⟩ := q1
              simp only [u1] at h
              cases v1 : toggle W H q1g (cy + 1) ((c0 + x * scaling) % W) with
              | none => rw [v1] at h; exact Option.noConfusion h
              | some s1 =>
                obtain ⟨s1g, s1v⟩ := s1
                simp only [v1] at h
                cases w1 : toggle W H s1g (cy + 1) ((c0 + x * scaling) % W + 1) with
                | none => rw [w1] at h; exact Option.noConfusion h
                | some u4 =>
                  obtain ⟨u4g, u4v⟩ := u4
                  simp only [w1] at h
                  obtain ⟨hiH, hjW⟩ := toggle_bounds t1
                  obtain ⟨_, hjW1⟩ := toggle_bounds u1
                  obtain ⟨hiH1, _⟩ := toggle_bounds v1
                  have t2 := toggle_pos g2 hiH hjW
                  simp only [t2]
                  have u2 := toggle_pos
                    (fun a b => if a = cy ∧ b = (c0 + x * scaling) % W
                      then !(g2 a b) else g2 a b) hiH hjW1
                  simp only [u2]
                  have v2 := toggle_pos
                    (fun a b => if a = cy ∧ b = (c0 + x * scaling) % W + 1
                      then !(if a = cy ∧ b = (c0 + x * scaling) % W
                        then !(g2 a b) else g2 a b)
                      else if a = cy ∧ b = (c0 + x * scaling) % W
                        then !(g2 a b) else g2 a b) hiH1 hjW
                  simp only [v2]
                  have w2 := toggle_pos
                    (fun a b => if a = cy + 1 ∧ b = (c0 + x * scaling) % W
                      then !(if a = cy ∧ b = (c0 + x * scaling) % W + 1
                        then !(if a = cy ∧ b = (c0 + x * scaling) % W
                          then !(g2 a b) else g2 a b)
                        else if a = cy ∧ b = (c0 + x * scaling) % W
                          then !(g2 a b) else g2 a b)
                      else if a = cy ∧ b = (c0 + x * scaling) % W + 1
                        then !(if a = cy ∧ b = (c0 + x * scaling) % W
                          then !(g2 a b) else g2 a b)
                        else if a = cy ∧ b = (c0 + x * scaling) % W
                          then !(g2 a b) else g2 a b) hiH1 hjW1
                  simp only [w2]
                  obtain ⟨r2, hr2, hdiff⟩ := ih (x + 1) u4g _
                    (c1 || !p1v || !q1v || !s1v || !u4v) _ r1 h
                  refine ⟨r2, hr2, fun a b => ?_⟩
                  refine (hdiff a b).trans ?_
                  refine (toggle_diff w1 w2 a b).trans ?_
                  refine (toggle_diff v1 v2 a b).trans ?_
                  refine (toggle_diff u1 u2 a b).trans ?_
                  exact toggle_diff t1 t2 a b
        · rename_i hhr
          rw [if_neg hhr]
          cases t1 : toggle W H g1 cy ((c0 + x * scaling) % W) with
          | none => rw [t1] at h; exact Option.noConfusion h
          | some p1 =>
            obtain ⟨p1g, p1v⟩ := p1
            simp only [t1] at h
            obtain ⟨hiH, hjW⟩ := toggle_bounds t1
            have t2 := toggle_pos g2 hiH hjW
            simp only [t2]
            obtain ⟨r2, hr2, hdiff⟩ := ih (x + 1) p1g _ (c1 || !p1v) _ r1 h
            refine ⟨r2, hr2, fun a b => ?_⟩
            exact (hdiff a b).trans (toggle_diff t1 t2 a b)
      · rename_i hb
        rw [if_neg hb]
        exact ih (x + 1) g1 g2 c1 c2 r1 h

/-- Row-level difference invariance for `drawRows`: a successful run from one
grid yields a successful run from any other grid toggling the same cells. -/
theorem drawRows_diff (W H : Nat) (clip halfRes : Bool) (scaling c0 c1 len : Nat) :
    ∀ (bytes : List Nat) (y : Nat) (g1 g2 : Nat → Nat → Bool) (n1 n2 : Nat)
      (r1 : (Nat → Nat → Bool) × Nat),
    drawRows W H clip halfRes scaling c0 c1 len y bytes g1 n1 = some r1 →
    ∃ r2, drawRows W H clip halfRes scaling c0 c1 len y bytes g2 n2 = some r2 ∧
      ∀ a b, Bool.xor (r1.1 a b) (r2.1 a b) = Bool.xor (g1 a b) (g2 a b) := by
  intro bytes
  induction bytes with
  | nil =>
    intro y g1 g2 n1 n2 r1 h
    injection h with h
    subst h
    exact ⟨(g2, n2), rfl, fun a b => rfl⟩
  | cons byte rest ih =>
    intro y g1 g2 n1 n2 r1 h
    simp only [drawRows] at h ⊢
    split at h
    · rename_i hcy
      rw [if_pos hcy]
      injection h with h
      subst h
      exact ⟨(g2, n2 + (len - y)), rfl, fun a b => rfl⟩
    · rename_i hcy
      rw [if_neg hcy]
      cases hb : drawBits W H clip halfRes scaling c0 ((c1 + y * scaling) % H) byte 0 8 g1 false with
      | none => rw [hb] at h; exact Option.noConfusion h
      | some p1 =>
        obtain ⟨p1g, p1c⟩ := p1
        simp only [hb] at h
        obtain ⟨p2, hp2, hdiffb⟩ :=
          drawBits_diff W H clip halfRes scaling c0 ((c1 + y * scaling) % H) byte
            8 0 g1 g2 false false (p1g, p1c) hb
        obtain ⟨p2g, p2c⟩ := p2
        simp only [hp2]
        obtain ⟨r2, hr2, hdiff⟩ := ih (y + 1) p1g p2g _ _ r1 h
        refine ⟨r2, hr2, fun a b => ?_⟩
        exact (hdiff a b).trans (hdiffb a b)

/-- Bit-level difference invariance for `draw16Bits`. -/
theorem draw16Bits_diff (W H : Nat) (clip : Bool) (c0 cy row : Nat) :
    ∀ (k x : Nat) (g1 g2 : Nat → Nat → Bool) (c1 c2 : Bool)
      (r1 : (Nat → Nat → Bool) × Bool),
    draw16Bits W H clip c0 cy row x k g1 c1 = some r1 →
    ∃ r2, draw16Bits W H clip c0 cy row x k g2 c2 = some r2 ∧
      ∀ a b, Bool.xor (r1.1 a b) (r2.1 a b) = Bool.xor (g1 a b) (g2 a b) := by
  intro k
  induction k with
  | zero =>
    intro x g1 g2 c1 c2 r1 h
    injection h with h
    subst h
    exact ⟨(g2, c2), rfl, fun a b => rfl⟩
  | succ m ih =>
    intro x g1 g2 c1 c2 r1 h
    simp only [draw16Bits] at h ⊢
    split at h
    · rename_i hcw
      rw [if_pos hcw]
      injection h with h
      subst h
      exact ⟨(g2, c2), rfl, fun a b => rfl⟩
    · rename_i hcw
      rw [if_neg hcw]
      split at h
      · rename_i hbit
        rw [if_pos hbit]
        cases t1 : toggle W H g1 cy ((c0 + x) % W) with
        | none => rw [t1] at h; exact Option.noConfusion h
        | some p1 =>
          obtain ⟨p1g, p1v⟩ := p1
          simp only [t1] at h
          obtain ⟨hiH, hjW⟩ := toggle_bounds t1
          have t2 := toggle_pos g2 hiH hjW
          simp only [t2]
          obtain ⟨r2, hr2, hdiff⟩ := ih (x + 1) p1g _ (c1 || !p1v) _ r1 h
          refine ⟨r2, hr2, fun a b => ?_⟩
          exact (hdiff a b).trans (toggle_diff t1 t2 a b)
      · rename_i hbit
        rw [if_neg hbit]
        exact ih (x + 1) g1 g2 c1 c2 r1 h

/-- Row-level difference invariance for `draw16Rows`. -/
theorem draw16Rows_diff (W H : Nat) (clip : Bool) (c0 c1 len : Nat) :
    ∀ (rows : List Nat) (y : Nat) (g1 g2 : Nat → Nat → Bool) (n1 n2 : Nat)
      (r1 : (Nat → Nat → Bool) × Nat),
    draw16Rows W H clip c0 c1 len y rows g1 n1 = some r1 →
    ∃ r2, draw16Rows W H clip c0 c1 len y rows g2 n2 = some r2 ∧
      ∀ a b, Bool.xor (r1.1 a b) (r2.1 a b) = Bool.xor (g1 a b) (g2 a b) := by
  intro rows
  induction rows with
  | nil =>
    intro y g1 g2 n1 n2 r1 h
    injection h with h
    subst h
    exact ⟨(g2, n2), rfl, fun a b => rfl⟩
  | cons row rest ih =>
    intro y g1 g2 n1 n2 r1 h
    simp only [draw16Rows] at h ⊢
    split at h
    · rename_i hcy
      rw [if_pos hcy]
      injection h with h
      subst h
      exact ⟨(g2, n2 + (len - y)), rfl, fun a b => rfl⟩
    · rename_i hcy
      rw [if_neg hcy]
      cases hb : draw16Bits W H clip c0 ((c1 + y) % H) row 0 16 g1 false with
      | none => rw [hb] at h; exact Option.noConfusion h
      | some p1 =>
        obtain ⟨p1g, p1c⟩ := p1
        simp only [hb] at h
        obtain ⟨p2, hp2, hdiffb⟩ :=
          draw16Bits_diff W H clip c0 ((c1 + y) % H) row 16 0 g1 g2 false false
            (p1g, p1c) hb
        obtain ⟨p2g, p2c⟩ := p2
        simp only [hp2]
        obtain ⟨r2, hr2, hdiff⟩ := ih (y + 1) p1g p2g _ _ r1 h
        refine ⟨r2, hr2, fun a b => ?_⟩
        exact (hdiff a b).trans (hdiffb a b)

/-- XOR cancellation: if toggling by the same mask relates two pairs of
values, the second run lands back on the first run's input. -/
theorem xorCancel {x y z : Bool} (h : Bool.xor x y = Bool.xor z x) : y = z := by
  revert h
  cases x <;> cases y <;> cases z <;> decide

/-- Characterisation of a successful `toggle`. -/
theorem toggle_elim {W H : Nat} {g : Nat → Nat → Bool} {i j : Nat}
    {g' : Nat → Nat → Bool} {v : Bool} (h : toggle W H g i j = some (g', v)) :
    g' = (fun a b => if a = i ∧ b = j then !(g a b) else g a b) ∧ v = !(g i j) := by
  unfold toggle at h
  split at h
  · simp only [Option.some.injEq, Prod.mk.injEq] at h
    obtain ⟨h1, h2⟩ := h
    refine ⟨h1.symm, ?_⟩
    rw [← h2]
    simp
  · exact Option.noConfusion h

/-- One toggle preserves the invariant used by the collision analysis: either
the tracked cell is lit, or the collided flag is already raised. -/
theorem toggle_step {W H : Nat} {g g' : Nat → Nat → Bool} {i j : Nat} {v : Bool}
    (h : toggle W H g i j = some (g', v)) (a b : Nat) {c : Bool}
    (hp : g a b = true ∨ c = true) : g' a b = true ∨ (c || !v) = true := by
  obtain ⟨hg, hv⟩ := toggle_elim h
  subst hg
  subst hv
  rcases hp with hp | hp
  · by_cases hab : a = i ∧ b = j
    · right
      obtain ⟨rfl, rfl⟩ := hab
      simp [hp]
    · left
      show (if a = i ∧ b = j then !(g a b) else g a b) = true
      rw [if_neg hab]
      exact hp
  · right
    rw [hp]
    rfl

/-- The bit loop of `draw` preserves the collision invariant: if the tracked
cell is lit (or the flag is already raised) on entry, then on exit the cell is
still lit or the flag is raised. -/
theorem drawBits_or (W H : Nat) (clip halfRes : Bool) (scaling c0 cy byte a b : Nat) :
    ∀ (k x : Nat) (g : Nat → Nat → Bool) (c : Bool) (r : (Nat → Nat → Bool) × Bool),
    drawBits W H clip halfRes scaling c0 cy byte x k g c = some r →
    (g a b = true ∨ c = true) → (r.1 a b = true ∨ r.2 = true) := by
  intro k
  induction k with
  | zero =>
    intro x g c r h hp
    injection h with h
    subst h
    exact hp
  | succ m ih =>
    intro x g c r h hp
    simp only [drawBits] at h
    split at h
    · injection h with h
      subst h
      exact hp
    · split at h
      · split at h
        · cases t1 : toggle W H g cy ((c0 + x * scaling) % W) with
          | none => rw [t1] at h; exact Option.noConfusion h
          | some p1 =>
            obtain ⟨p1g, p1v⟩ := p1
            simp only [t1] at h
            cases u1 : toggle W H p1g cy ((c0 + x * scaling) % W + 1) with
            | none => rw [u1] at h; exact Option.noConfusion h
            | some q1 =>
              obtain ⟨q1g, q1v⟩ := q1
              simp only [u1] at h
              cases v1 : toggle W H q1g (cy + 1) ((c0 + x * scaling) % W) with
              | none => rw [v1] at h; exact Option.noConfusion h
              | some s1 =>
                obtain ⟨s1g, s1v⟩ := s1
                simp only [v1] at h
                cases w1 : toggle W H s1g (cy + 1) ((c0 + x * scaling) % W + 1) with
                | none => rw [w1] at h; exact Option.noConfusion h
                | some u4 =>
                  obtain ⟨u4g, u4v⟩ := u4
                  simp only [w1] at h
                  exact ih (x + 1) u4g _ r h
                    (toggle_step w1 a b (toggle_step v1 a b
                      (toggle_step u1 a b (toggle_step t1 a b hp))))
        · cases t1 : toggle W H g cy ((c0 + x * scaling) % W) with
          | none => rw [t1] at h; exact Option.noConfusion h
          | some p1 =>
            obtain ⟨p1g, p1v⟩ := p1
            simp only [t1] at h
            exact ih (x + 1) p1g _ r h (toggle_step t1 a b hp)
      · exact ih (x + 1) g c r h hp

/-- The bit loop of `draw_16x16` preserves the collision invariant. -/
theorem draw16Bits_or (W H : Nat) (clip : Bool) (c0 cy row a b : Nat) :
    ∀ (k x : Nat) (g : Nat → Nat → Bool) (c : Bool) (r : (Nat → Nat → Bool) × Bool),
    draw16Bits W H clip c0 cy row x k g c = some r →
    (g a b = true ∨ c = true) → (r.1 a b = true ∨ r.2 = true) := by
  intro k
  induction k with
  | zero =>
    intro x g c r h hp
    injection h with h
    subst h
    exact hp
  | succ m ih =>
    intro x g c r h hp
    simp only [draw16Bits] at h
    split at h
    · injection h with h
      subst h
      exact hp
    · split at h
      · cases t1 : toggle W H g cy ((c0 + x) % W) with
        | none => rw [t1] at h; exact Option.noConfusion h
        | some p1 =>
          obtain ⟨p1g, p1v⟩ := p1
          simp only [t1] at h
          exact ih (x + 1) p1g _ r h (toggle_step t1 a b hp)
      · exact ih (x + 1) g c r h hp

/-- The colliding-row count of `drawRows` never decreases. -/
theorem drawRows_cnt_mono (W H : Nat) (clip halfRes : Bool) (scaling c0 c1 len : Nat) :
    ∀ (bytes : List Nat) (y : Nat) (g : Nat → Nat → Bool) (cnt : Nat)
      (r : (Nat → Nat → Bool) × Nat),
    drawRows W H clip halfRes scaling c0 c1 len y bytes g cnt = some r → cnt ≤ r.2 := by
  intro bytes
  induction bytes with
  | nil =>
    intro y g cnt r h
    injection h with h
    subst h
    exact Nat.le_refl cnt
  | cons byte rest ih =>
    intro y g cnt r h
    simp only [drawRows] at h
    split at h
    · injection h with h
      subst h
      exact Nat.le_add_right cnt (len - y)
    · cases hb : drawBits W H clip halfRes scaling c0 ((c1 + y * scaling) % H) byte 0 8 g false with
      | none => rw [hb] at h; exact Option.noConfusion h
      | some p =>
        obtain ⟨pg, pc⟩ := p
        simp only [hb] at h
        exact Nat.le_trans (Nat.le_add_right _ _) (ih (y + 1) pg _ r h)

/-- The colliding-row count of `draw16Rows` never decreases. -/
theorem draw16Rows_cnt_mono (W H : Nat) (clip : Bool) (c0 c1 len : Nat) :
    ∀ (rows : List Nat) (y : Nat) (g : Nat → Nat → Bool) (cnt : Nat)
      (r : (Nat → Nat → Bool) × Nat),
    draw16Rows W H clip c0 c1 len y rows g cnt = some r → cnt ≤ r.2 := by
  intro rows
  induction rows with
  | nil =>
    intro y g cnt r h
    injection h with h
    subst h
    exact Nat.le_refl cnt
  | cons row rest ih =>
    intro y g cnt r h
    simp only [draw16Rows] at h
    split at h
    · injection h with h
      subst h
      exact Nat.le_add_right cnt (len - y)
    · cases hb : draw16Bits W H clip c0 ((c1 + y) % H) row 0 16 g false with
      | none => rw [hb] at h; exact Option.noConfusion h
      | some p =>
        obtain ⟨pg, pc⟩ := p
        simp only [hb] at h
        exact Nat.le_trans (Nat.le_add_right _ _) (ih (y + 1) pg _ r h)

/-- If a `drawRows` run unlights a cell that was lit on entry, some row of the
run collided, so the colliding-row count strictly grows. -/
theorem drawRows_flip (W H : Nat) (clip halfRes : Bool) (scaling c0 c1 len a b : Nat) :
    ∀ (bytes : List Nat) (y : Nat) (g : Nat → Nat → Bool) (cnt : Nat)
      (r : (Nat → Nat → Bool) × Nat),
    drawRows W H clip halfRes scaling c0 c1 len y bytes g cnt = some r →
    g a b = true → r.1 a b = false → cnt + 1 ≤ r.2 := by
  intro bytes
  induction bytes with
  | nil =>
    intro y g cnt r h hg hrf
    injection h with h
    subst h
    have hrf2 : g a b = false := hrf
    rw [hg] at hrf2
    exact Bool.noConfusion hrf2
  | cons byte rest ih =>
    intro y g cnt r h hg hrf
    simp only [drawRows] at h
    split at h
    · injection h with h
      subst h
      have hrf2 : g a b = false := hrf
      rw [hg] at hrf2
      exact Bool.noConfusion hrf2
    · cases hb : drawBits W H clip halfRes scaling c0 ((c1 + y * scaling) % H) byte 0 8 g false with
      | none => rw [hb] at h; exact Option.noConfusion h
      | some p =>
        obtain ⟨pg, pc⟩ := p
        simp only [hb] at h
        cases hpg : pg a b with
        | true =>
          have hrec := ih (y + 1) pg _ r h hpg hrf
          omega
        | false =>
          have hor := drawBits_or W H clip halfRes scaling c0
            ((c1 + y * scaling) % H) byte a b 8 0 g false (pg, pc) hb (Or.inl hg)
          rcases hor with hor | hor
          · have hor2 : pg a b = true := hor
            rw [hpg] at hor2
            exact Bool.noConfusion hor2
          · have hpc : pc = true := hor
            subst hpc
            have hm := drawRows_cnt_mono W H clip halfRes scaling c0 c1 len
              rest (y + 1) pg _ r h
            simp only [if_pos rfl] at hm
            exact hm

/-- If a `draw16Rows` run unlights a cell that was lit on entry, the
colliding-row count strictly grows. -/
theorem draw16Rows_flip (W H : Nat) (clip : Bool) (c0 c1 len a b : Nat) :
    ∀ (rows : List Nat) (y : Nat) (g : Nat → Nat → Bool) (cnt : Nat)
      (r : (Nat → Nat → Bool) × Nat),
    draw16Rows W H clip c0 c1 len y rows g cnt = some r →
    g a b = true → r.1 a b = false → cnt + 1 ≤ r.2 := by
  intro rows
  induction rows with
  | nil =>
    intro y g cnt r h hg hrf
    injection h with h
    subst h
    have hrf2 : g a b = false := hrf
    rw [hg] at hrf2
    exact Bool.noConfusion hrf2
  | cons row rest ih =>
    intro y g cnt r h hg hrf
    simp only [draw16Rows] at h
    split at h
    · injection h with h
      subst h
      have hrf2 : g a b = false := hrf
      rw [hg] at hrf2
      exact Bool.noConfusion hrf2
    · cases hb : draw16Bits W H clip c0 ((c1 + y) % H) row 0 16 g false with
      | none => rw [hb] at h; exact Option.noConfusion h
      | some p =>
        obtain ⟨pg, pc⟩ := p
        simp only [hb] at h
        cases hpg : pg a b with
        | true =>
          have hrec := ih (y + 1) pg _ r h hpg hrf
          omega
        | false =>
          have hor := draw16Bits_or W H clip c0 ((c1 + y) % H) row a b 16 0 g
            false (pg, pc) hb (Or.inl hg)
          rcases hor with hor | hor
          · have hor2 : pg a b = true := hor
            rw [hpg] at hor2
            exact Bool.noConfusion hor2
          · have hpc : pc = true := hor
            subst hpc
            have hm := draw16Rows_cnt_mono W H clip c0 c1 len rest (y + 1) pg _ r h
            simp only [if_pos rfl] at hm
            exact hm

/-- C8: the claim fails as stated.  Drawing the one-bit sprite `[0x80]` at
`(0, 0)` on a display whose pixel `(0, 0)` is already lit first erases that
pixel; the second identical draw then lands on a dark pixel, so it reports
zero colliding rows even though the sprite has a set bit. -/
theorem c8_counterexample : ¬ claimC8At dPix (0, 0) [0x80] := by
  intro h
  obtain ⟨d2, k2, he, hres, hcol⟩ := h _ _ rfl
  have h1 := hcol ⟨0x80, by decide, by decide⟩
  have h3 : (some (d2, k2)).map Prod.snd = some 0 := by
    rw [← he]
    rfl
  injection h3 with h3
  have hk : k2 = 0 := h3
  omega

/-- C8 (amended): for every display buffer, coordinate pair and sprite, if
`draw` succeeds then repeating the very same `draw` also succeeds and returns
every pixel of the display to its state before the first call; and the second
draw reports a colliding-row count of at least 1 whenever the first draw
turned some pixel on (the set-bit condition of the original claim is not
enough: a set bit that lands on an already-lit pixel erases it, and the
second draw then re-lights it without a collision). -/
theorem c8_amended {W H : Nat} (d : DisplayBuffer W H) (coordinates : Nat × Nat)
    (sprite : List Nat) (d1 : DisplayBuffer W H) (n1 : Nat)
    (h : d.draw coordinates sprite = some (d1, n1)) :
    ∃ d2 n2, d1.draw coordinates sprite = some (d2, n2) ∧
      (∀ a b, d2.buffer a b = d.buffer a b) ∧
      ((∃ a b, d.buffer a b = false ∧ d1.buffer a b = true) → 1 ≤ n2) := by
  simp only [DisplayBuffer.draw] at h ⊢
  by_cases hc : sprite.length = 32 ∧ d.half_resolution = false
  · rw [if_pos hc] at h
    simp only [DisplayBuffer.draw_16x16] at h
    split at h
    · exact Option.noConfusion h
    · rename_i pg pn hr
      injection h with h
      injection h with hd1 hn1
      have hhalf : d1.half_resolution = d.half_resolution := by rw [← hd1]
      have hopts : d1.options = d.options := by rw [← hd1]
      have hbuf : d1.buffer = pg := by rw [← hd1]
      rw [if_pos ⟨hc.1, hhalf.trans hc.2⟩]
      simp only [DisplayBuffer.draw_16x16]
      rw [hopts, hbuf]
      obtain ⟨r2, hr2, hdiff⟩ :=
        draw16Rows_diff _ _ _ _ _ _ _ 0 d.buffer pg 0 0 (pg, pn) hr
      obtain ⟨r2g, r2n⟩ := r2
      simp only [hr2]
      refine ⟨_, _, rfl, fun a b => xorCancel (hdiff a b), ?_⟩
      intro hex
      obtain ⟨a, b, hoff, hon⟩ := hex
      have hr2f : r2g a b = false := (xorCancel (hdiff a b)).trans hoff
      exact draw16Rows_flip _ _ _ _ _ _ a b _ 0 pg 0 (r2g, r2n) hr2 hon hr2f
  · rw [if_neg hc] at h
    split at h
    · exact Option.noConfusion h
    · rename_i pg pn hr
      injection h with h
      injection h with hd1 hn1
      have hhalf : d1.half_resolution = d.half_resolution := by rw [← hd1]
      have hopts : d1.options = d.options := by rw [← hd1]
      have hbuf : d1.buffer = pg := by rw [← hd1]
      rw [if_neg (fun hx => hc ⟨hx.1, hhalf.symm.trans hx.2⟩)]
      rw [hhalf, hopts, hbuf]
      obtain ⟨r2, hr2, hdiff⟩ :=
        drawRows_diff _ _ _ _ _ _ _ _ sprite 0 d.buffer pg 0 0 (pg, pn) hr
      obtain ⟨r2g, r2n⟩ := r2
      simp only [hr2]
      refine ⟨_, _, rfl, fun a b => xorCancel (hdiff a b), ?_⟩
      intro hex
      obtain ⟨a, b, hoff, hon⟩ := hex
      have hr2f : r2g a b = false := (xorCancel (hdiff a b)).trans hoff
      exact drawRows_flip _ _ _ _ _ _ _ _ a b sprite 0 pg 0 (r2g, r2n) hr2 hon hr2f

/-- Closed instantiation of the amended C8 theorem: drawing `[0x80]` at
`(0, 0)` on the empty display and then drawing it again restores the display,
and the second draw collides. -/
theorem c8_witness :
    ∃ d1 n1, dEmpty.draw (0, 0) [0x80] = some (d1, n1) ∧
      ∃ d2 n2, d1.draw (0, 0) [0x80] = some (d2, n2) ∧
        (∀ a b, d2.buffer a b = dEmpty.buffer a b) ∧
        ((∃ a b, dEmpty.buffer a b = false ∧ d1.buffer a b = true) → 1 ≤ n2) :=
  ⟨_, _, rfl, c8_amended dEmpty (0, 0) [0x80] _ _ rfl⟩

end Ruschip
